import Mathlib

/-!
# The ebos Newton method: convergence criterion and residual error evaluation

A shallow embedding of `Ewoms::EclNewtonMethod` (`ebos/eclnewtonmethod.hh`), in
the namespace `Ewoms`; the namespace `Dune` further down embeds
`Dune::BoxDirichletConstraints` (`dumux/boxmodels/pdelab/boxdirichletconstraints.hh`).

The C++ type `Scalar` is embedded as an arbitrary linearly ordered field `K`
(evaluated at `ℚ` in the concrete examples): arithmetic is exact.  Rounding and
the IEEE special values are not part of the embedding.  In particular a quotient
by zero has the value 0 here, where the C++ code computes an infinity or NaN.  A
zero divisor arises only for an eligible DOF of zero porosity (`pvValue = 0`) or
when the pore volumes of the eligible DOFs sum to zero (`sumPv = 0`); at such
inputs the general theorems describe the C++ code up to the value of that
quotient, and the doc comment of a theorem that evaluates the embedding at such
an input says what the C++ code does.  `std::cbrt` is a parameter
`cbrt : K → K` of the embedding.

The collaborators of the class (simulator, problem, model, linearizer, run-time
parameters, communicator) are not part of the sources; the values the method
reads from them are fields of `Simulator`, `Params` and `Comm`.
-/

namespace Ewoms

/-- The C++ type `EqVector` (`Dune::FieldVector<Scalar, numEq>`). -/
abbrev EqVector (K : Type) (numEq : Nat) : Type := Fin numEq → K

/-- The C++ type `GlobalEqVector`: `size()` blocks, block `dofIdx` read by
`operator[]`. -/
structure GlobalEqVector (K : Type) (numEq : Nat) where
  size : Nat
  block : Nat → EqVector K numEq

/-- What `preSolve_` reads through `this->simulator_` and `this->model()`:
`timeStepSize()`, `problem().porosity(dofIdx)`, `numGridDof()`,
`dofTotalVolume(dofIdx)`, `isLocalDof(dofIdx)`, `eqWeight(dofIdx, eqIdx)`, the keys
of `linearizer().constraintsMap()` and `enableConstraints_()`. -/
structure Simulator (K : Type) (numEq : Nat) where
  timeStepSize : K
  porosity : Nat → K
  numGridDof : Nat
  dofTotalVolume : Nat → K
  isLocalDof : Nat → Bool
  eqWeight : Nat → Fin numEq → K
  constraintsMap : List Nat
  enableConstraints : Bool

/-- The run-time parameters read with `EWOMS_GET_PARAM`. -/
structure Params (K : Type) where
  newtonMaxError : K
  newtonSumTolerance : K

/-- The four local quantities a process hands to the collective operations of
`comm_` in `preSolve_`. -/
structure Partials (K : Type) (numEq : Nat) where
  error : K
  componentSumError : EqVector K numEq
  sumPv : K
  errorPvFraction : K

/-- The communicator `comm_` as seen from one process: the local quantities of
the other processes.  A sequential run has no other process. -/
structure Comm (K : Type) (numEq : Nat) where
  others : List (Partials K numEq)

/-- The data members of the Newton method that `converged` and `preSolve_` use:
`error_`, `lastError_`, `tolerance_` and the iteration counter of the base class,
and the four members of `EclNewtonMethod`. -/
structure EclNewtonMethod (K : Type) where
  error_ : K
  lastError_ : K
  tolerance_ : K
  numIterations_ : Int
  errorPvFraction_ : K
  errorSum_ : K
  relaxedTolerance_ : K
  sumTolerance_ : K

/-- The exception `Opm::NumericalIssue` thrown by `preSolve_`, with the offending
value and the ceiling of its message. -/
inductive NumericalIssue (K : Type) where
  | errorTooLarge (error newtonMaxError : K)
  | errorSumTooLarge (errorSum newtonMaxError : K)

variable {K : Type} [LinearOrderedField K] {numEq : Nat}

/-- The constructor `EclNewtonMethod(Simulator&)`: the base-class members come
from the base-class constructor, `errorSum_` is left uninitialised. -/
def EclNewtonMethod.construct (params : Params K) (error_ lastError_ tolerance_ : K)
    (numIterations_ : Int) (errorSum_ : K) : EclNewtonMethod K where
  error_ := error_
  lastError_ := lastError_
  tolerance_ := tolerance_
  numIterations_ := numIterations_
  errorPvFraction_ := 1.0
  errorSum_ := errorSum_
  relaxedTolerance_ := 1e9
  sumTolerance_ := params.newtonSumTolerance

/-- The accessor `tolerance()` of the base class. -/
def EclNewtonMethod.tolerance (self : EclNewtonMethod K) : K := self.tolerance_

/-- The accessor `numIterations()` of the base class. -/
def EclNewtonMethod.numIterations (self : EclNewtonMethod K) : Int := self.numIterations_

/-- The method `converged()`. -/
def EclNewtonMethod.converged (self : EclNewtonMethod K) : Bool :=
  if self.errorPvFraction_ < 0.03 then
    decide (self.error_ < self.relaxedTolerance_) && decide (self.errorSum_ < self.sumTolerance_)
  else if self.numIterations > 8 then
    decide (self.error_ < self.relaxedTolerance_) && decide (self.errorSum_ < self.sumTolerance_)
  else
    decide (self.error_ ≤ self.tolerance) && decide (self.errorSum_ ≤ self.sumTolerance_)

/-- `comm_.max(x)`: the maximum of the local value and the other processes'. -/
def Comm.max (comm : Comm K numEq) (sel : Partials K numEq → K) (x : K) : K :=
  (comm.others.map sel).foldl Max.max x

/-- `comm_.sum(x)` for a scalar. -/
def Comm.sum (comm : Comm K numEq) (sel : Partials K numEq → K) (x : K) : K :=
  (comm.others.map sel).foldl (· + ·) x

/-- `comm_.sum(x)` for a `FieldVector`: the sum of every component. -/
def Comm.sumVec (comm : Comm K numEq) (x : EqVector K numEq) : EqVector K numEq :=
  fun eqIdx => comm.sum (fun p => p.componentSumError eqIdx) (x eqIdx)

/-- The local variables of the loop over the DOFs in `preSolve_`. -/
structure ScanState (K : Type) (numEq : Nat) where
  error_ : K
  componentSumError : EqVector K numEq
  sumPv : K
  errorPvFraction_ : K

/-- The local variables of the loop over the equations of one DOF. -/
structure EqState (K : Type) (numEq : Nat) where
  error_ : K
  cnvViolated : Bool
  componentSumError : EqVector K numEq

/-- One pass through the body of the loop over `eqIdx` (source lines 147-155). -/
def eqLoopBody (sim : Simulator K numEq) (dt tolerance_ : K) (dofIdx : Nat)
    (r : EqVector K numEq) (pvValue : K) (st : EqState K numEq) (eqIdx : Fin numEq) :
    EqState K numEq :=
  let tmpError := r eqIdx * dt * sim.eqWeight dofIdx eqIdx / pvValue
  let tmpError2 := r eqIdx * sim.eqWeight dofIdx eqIdx
  { error_ := max |tmpError| st.error_
    cnvViolated := if |tmpError| > tolerance_ then true else st.cnvViolated
    componentSumError :=
      Function.update st.componentSumError eqIdx (st.componentSumError eqIdx + |tmpError2|) }

/-- One pass through the body of the loop over `dofIdx` (source lines 125-158). -/
def dofLoopBody (sim : Simulator K numEq) (currentResidual : GlobalEqVector K numEq)
    (dt tolerance_ : K) (st : ScanState K numEq) (dofIdx : Nat) : ScanState K numEq :=
  if decide (dofIdx ≥ sim.numGridDof) || decide (sim.dofTotalVolume dofIdx ≤ 0) then st
  else if !sim.isLocalDof dofIdx then st
  else if sim.enableConstraints && decide (sim.constraintsMap.count dofIdx > 0) then st
  else
    let r := currentResidual.block dofIdx
    let pvValue := sim.porosity dofIdx * sim.dofTotalVolume dofIdx
    let inner := (List.finRange numEq).foldl (eqLoopBody sim dt tolerance_ dofIdx r pvValue)
      { error_ := st.error_, cnvViolated := false, componentSumError := st.componentSumError }
    { error_ := inner.error_
      componentSumError := inner.componentSumError
      sumPv := st.sumPv + pvValue
      errorPvFraction_ := if inner.cnvViolated then st.errorPvFraction_ + pvValue
        else st.errorPvFraction_ }

/-- The loop over the DOFs of `preSolve_` with its initialisation (source lines
118-159): the local quantities before the collective operations. -/
def localScan (sim : Simulator K numEq) (currentResidual : GlobalEqVector K numEq)
    (tolerance_ : K) : ScanState K numEq :=
  (List.range currentResidual.size).foldl
    (dofLoopBody sim currentResidual sim.timeStepSize tolerance_)
    { error_ := 0, componentSumError := fun _ => 0, sumPv := 0, errorPvFraction_ := 0 }

/-- The loop computing `errorSum_` (source lines 172-174). -/
def errorSumLoop (componentSumError : EqVector K numEq) : K :=
  (List.finRange numEq).foldl (fun errorSum_ eqIdx => max |componentSumError eqIdx| errorSum_) 0

/-- The method `preSolve_`: the members after the call, and whether the call
returned or threw.  The members are assigned before the two checks, so they are
updated also when the call throws. -/
def EclNewtonMethod.preSolve_ (sim : Simulator K numEq) (params : Params K) (cbrt : K → K)
    (comm : Comm K numEq) (currentResidual : GlobalEqVector K numEq)
    (self : EclNewtonMethod K) : EclNewtonMethod K × Except (NumericalIssue K) Unit :=
  let newtonMaxError := params.newtonMaxError
  let dt := sim.timeStepSize
  let scan := localScan sim currentResidual self.tolerance_
  let error_ := comm.max (fun p => p.error) scan.error_
  let componentSumError := comm.sumVec scan.componentSumError
  let sumPv := comm.sum (fun p => p.sumPv) scan.sumPv
  let errorPvFraction_ := comm.sum (fun p => p.errorPvFraction) scan.errorPvFraction_
  let componentSumError : EqVector K numEq := fun eqIdx => componentSumError eqIdx / sumPv
  let componentSumError : EqVector K numEq := fun eqIdx => componentSumError eqIdx * dt
  let errorPvFraction_ := errorPvFraction_ / sumPv
  let errorSum_ := errorSumLoop componentSumError
  let sumTolerance_ := params.newtonSumTolerance * cbrt sumPv
  let self1 : EclNewtonMethod K :=
    { error_ := error_
      lastError_ := self.error_
      tolerance_ := self.tolerance_
      numIterations_ := self.numIterations_
      errorPvFraction_ := errorPvFraction_
      errorSum_ := errorSum_
      relaxedTolerance_ := self.relaxedTolerance_
      sumTolerance_ := sumTolerance_ }
  if error_ > newtonMaxError then
    (self1, Except.error (NumericalIssue.errorTooLarge error_ newtonMaxError))
  else if errorSum_ > newtonMaxError then
    (self1, Except.error (NumericalIssue.errorSumTooLarge errorSum_ newtonMaxError))
  else
    (self1, Except.ok ())

/-- The local quantities a process contributes to the collective operations. -/
def ScanState.toPartials (st : ScanState K numEq) : Partials K numEq where
  error := st.error_
  componentSumError := st.componentSumError
  sumPv := st.sumPv
  errorPvFraction := st.errorPvFraction_

/-- The communicator of a sequential run. -/
def Comm.sequential : Comm K numEq where
  others := []

/-! ## Vocabulary of the specification -/

/-- The pore volume of a DOF: `porosity(dofIdx) * dofTotalVolume(dofIdx)`. -/
def Simulator.pvValue (sim : Simulator K numEq) (dofIdx : Nat) : K :=
  sim.porosity dofIdx * sim.dofTotalVolume dofIdx

/-- A DOF is constrained when constraints are enabled and the constraints map
has an entry for it. -/
def Simulator.constrained (sim : Simulator K numEq) (dofIdx : Nat) : Prop :=
  sim.enableConstraints = true ∧ dofIdx ∈ sim.constraintsMap

/-- The DOFs that the loop of `preSolve_` does not skip: grid DOFs of positive
total volume that are local and not constrained. -/
def Simulator.eligible (sim : Simulator K numEq) (dofIdx : Nat) : Prop :=
  dofIdx < sim.numGridDof ∧ 0 < sim.dofTotalVolume dofIdx ∧ sim.isLocalDof dofIdx = true ∧
    ¬ sim.constrained dofIdx

instance (sim : Simulator K numEq) : DecidablePred sim.constrained := fun _ =>
  inferInstanceAs (Decidable (_ ∧ _))

instance (sim : Simulator K numEq) : DecidablePred sim.eligible := fun _ =>
  inferInstanceAs (Decidable (_ ∧ _ ∧ _ ∧ _))

/-- The eligible DOFs among the `size` blocks of a residual. -/
def Simulator.eligibleDofs (sim : Simulator K numEq) (size : Nat) : Finset Nat :=
  (Finset.range size).filter sim.eligible

/-- The scaled error of one equation of one DOF:
`residual[d][e] * dt * weight[d][e] / pv[d]`. -/
def scaledError (sim : Simulator K numEq) (r : GlobalEqVector K numEq) (dofIdx : Nat)
    (eqIdx : Fin numEq) : K :=
  r.block dofIdx eqIdx * sim.timeStepSize * sim.eqWeight dofIdx eqIdx / sim.pvValue dofIdx

/-- A DOF is violating when the scaled error of one of its equations is, in
absolute value, above the strict tolerance. -/
def violating (sim : Simulator K numEq) (r : GlobalEqVector K numEq) (tolerance_ : K)
    (dofIdx : Nat) : Prop :=
  ∃ eqIdx : Fin numEq, |scaledError sim r dofIdx eqIdx| > tolerance_

instance (sim : Simulator K numEq) (r : GlobalEqVector K numEq) (tolerance_ : K) :
    DecidablePred (violating sim r tolerance_) := fun _ =>
  inferInstanceAs (Decidable (∃ _, _))

/-- The sum of the pore volumes of the eligible DOFs. -/
def totalPoreVolume (sim : Simulator K numEq) (size : Nat) : K :=
  ∑ d ∈ sim.eligibleDofs size, sim.pvValue d

/-- Whether a call of `preSolve_` threw. -/
def threw (result : EclNewtonMethod K × Except (NumericalIssue K) Unit) : Bool :=
  match result.2 with
  | Except.ok _ => false
  | Except.error _ => true

/-- The simulator as subdomain `p` of a run on `n` subdomains sees it when DOF `d`
belongs to subdomain `owner d`: the same DOFs, of which those of the subdomain
are local. -/
def Simulator.subdomain {n : Nat} (sim : Simulator K numEq) (owner : Nat → Fin n)
    (p : Fin n) : Simulator K numEq :=
  { sim with isLocalDof := fun dofIdx => sim.isLocalDof dofIdx && decide (owner dofIdx = p) }

/-- The communicator of subdomain `p` in a run on `n` subdomains: the other
subdomains contribute the result of their own loop over the DOFs. -/
def partitionComm {n : Nat} (sim : Simulator K numEq) (owner : Nat → Fin n)
    (r : GlobalEqVector K numEq) (tolerance_ : K) (p : Fin n) : Comm K numEq where
  others := ((List.finRange n).filter (fun q => q ≠ p)).map
    (fun q => (localScan (sim.subdomain owner q) r tolerance_).toPartials)

/-- The normalised sum error of one equation: the absolute values
`|residual[d][e] * weight[d][e]|` summed over the eligible DOFs, then divided by
the total pore volume, then multiplied by the time-step size. -/
def massBalanceError (sim : Simulator K numEq) (r : GlobalEqVector K numEq)
    (eqIdx : Fin numEq) : K :=
  (∑ d ∈ sim.eligibleDofs r.size, |r.block d eqIdx * sim.eqWeight d eqIdx|) /
    totalPoreVolume sim r.size * sim.timeStepSize

/-- The same error state at another iteration count. -/
def EclNewtonMethod.atIteration (self : EclNewtonMethod K) (numIterations_ : Int) :
    EclNewtonMethod K :=
  { self with numIterations_ := numIterations_ }

/-! ## Concrete data for the examples -/

/-- One grid DOF of total volume 1 and porosity 1 (pore volume 1), one equation
of weight 1, time-step size 1, no constraints. -/
def unitSim : Simulator ℚ 1 where
  timeStepSize := 1
  porosity := fun _ => 1
  numGridDof := 1
  dofTotalVolume := fun _ => 1
  isLocalDof := fun _ => true
  eqWeight := fun _ _ => 1
  constraintsMap := []
  enableConstraints := false

/-- The residual with `size` blocks whose entries all are `x`. -/
def constResidual (size : Nat) (x : ℚ) : GlobalEqVector ℚ 1 where
  size := size
  block := fun _ _ => x

/-- A stand-in for `std::cbrt` in the examples, exact on the arguments they use:
`0 ↦ 0`, `1 ↦ 1`, `8 ↦ 2`; it is positive on positive arguments. -/
def cbrtTable (x : ℚ) : ℚ := if x = 8 then 2 else x

/-- A Newton method before the first call of `preSolve_`, with strict tolerance
`tolerance_` and `numIterations_` iterations done. -/
def freshMethod (params : Params ℚ) (tolerance_ : ℚ) (numIterations_ : Int) :
    EclNewtonMethod ℚ :=
  EclNewtonMethod.construct params 0 0 tolerance_ numIterations_ 0

/-- A residual with two blocks for `unitSim`, whose second DOF is auxiliary:
`0` on DOF 0 and `x` on DOF 1. -/
def auxResidual (x : ℚ) : GlobalEqVector ℚ 1 where
  size := 2
  block := fun dofIdx _ => if dofIdx = 1 then x else 0

/-- An error state with `maxError = 5`, `errorSum = 1/2`, strict tolerance `1`,
sum tolerance `1`, relaxed tolerance `1e9`, and the given fraction and iteration
count. -/
def errorState (errorPvFraction_ : ℚ) (numIterations_ : Int) : EclNewtonMethod ℚ where
  error_ := 5
  lastError_ := 7
  tolerance_ := 1
  numIterations_ := numIterations_
  errorPvFraction_ := errorPvFraction_
  errorSum_ := 1 / 2
  relaxedTolerance_ := 1e9
  sumTolerance_ := 1

/-- The simulator `unitSim` with the porosity, hence the pore volume, of every
DOF multiplied by 8. -/
def unitSimTimes8 : Simulator ℚ 1 :=
  { unitSim with porosity := fun _ => 8 }

/-- A residual with two blocks of one equation: `x` on DOF 0 and `y` on DOF 1. -/
def twoDofResidual (x y : ℚ) : GlobalEqVector ℚ 1 where
  size := 2
  block := fun dofIdx _ => if dofIdx = 0 then x else y

/-- Two grid DOFs of total volume 1: DOF 0 of porosity -1 (pore volume -1) and
DOF 1 of porosity 2 (pore volume 2); one equation of weight 1, time-step size 1. -/
def mixedSignSim : Simulator ℚ 1 :=
  { unitSim with numGridDof := 2, porosity := fun dofIdx => if dofIdx = 0 then -1 else 2 }

/-- Two grid DOFs of total volume 1: DOF 0 of porosity 1 and DOF 1 of porosity 0
(pore volume 0); one equation of weight 1, time-step size 1. -/
def zeroPorositySim : Simulator ℚ 1 :=
  { unitSim with numGridDof := 2, porosity := fun dofIdx => if dofIdx = 0 then 1 else 0 }

/-- The simulator `unitSim` without any grid DOF: every DOF is auxiliary. -/
def noGridDofSim : Simulator ℚ 1 :=
  { unitSim with numGridDof := 0 }

/-- An error state on the boundary of the sum tolerance: `errorSum = sumTolerance = 1`,
`maxError = 0`, strict tolerance `1`, fraction `0.10`. -/
def boundaryState (numIterations_ : Int) : EclNewtonMethod ℚ where
  error_ := 0
  lastError_ := 0
  tolerance_ := 1
  numIterations_ := numIterations_
  errorPvFraction_ := 0.10
  errorSum_ := 1
  relaxedTolerance_ := 1e9
  sumTolerance_ := 1

/-- An error state with `maxError = strictTolerance = relaxedTolerance = 1`,
`errorSum = 0 < sumTolerance = 1`, fraction `0.10`. -/
def equalTolerancesState (numIterations_ : Int) : EclNewtonMethod ℚ where
  error_ := 1
  lastError_ := 0
  tolerance_ := 1
  numIterations_ := numIterations_
  errorPvFraction_ := 0.10
  errorSum_ := 0
  relaxedTolerance_ := 1
  sumTolerance_ := 1

/-- An error state off the tolerance boundaries that the strict test accepts:
`maxError = 5 ≤ strictTolerance = 6`, `errorSum = 1/2 < sumTolerance = 1`,
fraction `0.10`. -/
def strictlyAcceptedState : EclNewtonMethod ℚ where
  error_ := 5
  lastError_ := 7
  tolerance_ := 6
  numIterations_ := 0
  errorPvFraction_ := 0.10
  errorSum_ := 1 / 2
  relaxedTolerance_ := 1e9
  sumTolerance_ := 1

/-! ## The same method over scalars with infinities and NaN

A second embedding of `preSolve_`, in the namespace `Ewoms.Ieee`.  Its scalars are
the finite rationals (finite arithmetic stays exact: no rounding, no overflow),
the two infinities and NaN, with the IEEE 754 rules for the operations that
`preSolve_` uses: a quotient by zero is an infinity, or NaN for `0 / 0`; every
comparison with NaN is false; `std::max(a, b)` is `(a < b) ? b : a`.  The zero
has no sign: the only divisors of `preSolve_` are `pvValue`, whose quotient goes
through `std::abs`, and `sumPv`, a sum started at `0.0`. -/

namespace Ieee

/-- An IEEE scalar: a finite value, an infinity or NaN. -/
inductive Scalar where
  | finite (q : ℚ)
  | posInf
  | negInf
  | nan
deriving DecidableEq

/-- The sum `a + b`. -/
def Scalar.add : Scalar → Scalar → Scalar
  | Scalar.finite a, Scalar.finite b => Scalar.finite (a + b)
  | Scalar.nan, _ => Scalar.nan
  | _, Scalar.nan => Scalar.nan
  | Scalar.posInf, Scalar.negInf => Scalar.nan
  | Scalar.negInf, Scalar.posInf => Scalar.nan
  | Scalar.posInf, _ => Scalar.posInf
  | _, Scalar.posInf => Scalar.posInf
  | Scalar.negInf, _ => Scalar.negInf
  | _, Scalar.negInf => Scalar.negInf

/-- The infinity of the sign of `a`, NaN for `a = 0`: an infinity times `a`. -/
def Scalar.infTimes (positive : Bool) (a : ℚ) : Scalar :=
  if a = 0 then Scalar.nan
  else if (0 < a) = positive then Scalar.posInf else Scalar.negInf

/-- The product `a * b`. -/
def Scalar.mul : Scalar → Scalar → Scalar
  | Scalar.finite a, Scalar.finite b => Scalar.finite (a * b)
  | Scalar.nan, _ => Scalar.nan
  | _, Scalar.nan => Scalar.nan
  | Scalar.finite a, Scalar.posInf => Scalar.infTimes true a
  | Scalar.finite a, Scalar.negInf => Scalar.infTimes false a
  | Scalar.posInf, Scalar.finite b => Scalar.infTimes true b
  | Scalar.negInf, Scalar.finite b => Scalar.infTimes false b
  | Scalar.posInf, Scalar.posInf => Scalar.posInf
  | Scalar.posInf, Scalar.negInf => Scalar.negInf
  | Scalar.negInf, Scalar.posInf => Scalar.negInf
  | Scalar.negInf, Scalar.negInf => Scalar.posInf

/-- The quotient `a / b`. -/
def Scalar.div : Scalar → Scalar → Scalar
  | Scalar.finite a, Scalar.finite b =>
    if b = 0 then
      if a = 0 then Scalar.nan else if 0 < a then Scalar.posInf else Scalar.negInf
    else Scalar.finite (a / b)
  | Scalar.nan, _ => Scalar.nan
  | _, Scalar.nan => Scalar.nan
  | Scalar.finite _, Scalar.posInf => Scalar.finite 0
  | Scalar.finite _, Scalar.negInf => Scalar.finite 0
  | Scalar.posInf, Scalar.finite b => if 0 ≤ b then Scalar.posInf else Scalar.negInf
  | Scalar.negInf, Scalar.finite b => if 0 ≤ b then Scalar.negInf else Scalar.posInf
  | Scalar.posInf, Scalar.posInf => Scalar.nan
  | Scalar.posInf, Scalar.negInf => Scalar.nan
  | Scalar.negInf, Scalar.posInf => Scalar.nan
  | Scalar.negInf, Scalar.negInf => Scalar.nan

/-- The absolute value `std::abs(a)`. -/
def Scalar.abs : Scalar → Scalar
  | Scalar.finite a => Scalar.finite |a|
  | Scalar.posInf => Scalar.posInf
  | Scalar.negInf => Scalar.posInf
  | Scalar.nan => Scalar.nan

/-- The comparison `a < b`; false when an operand is NaN. -/
def Scalar.lt : Scalar → Scalar → Bool
  | Scalar.finite a, Scalar.finite b => decide (a < b)
  | Scalar.nan, _ => false
  | _, Scalar.nan => false
  | Scalar.negInf, Scalar.negInf => false
  | Scalar.negInf, _ => true
  | Scalar.posInf, _ => false
  | Scalar.finite _, Scalar.posInf => true
  | Scalar.finite _, Scalar.negInf => false

/-- The comparison `a <= b`; false when an operand is NaN. -/
def Scalar.le : Scalar → Scalar → Bool
  | Scalar.finite a, Scalar.finite b => decide (a ≤ b)
  | Scalar.nan, _ => false
  | _, Scalar.nan => false
  | Scalar.negInf, _ => true
  | Scalar.posInf, Scalar.posInf => true
  | Scalar.posInf, _ => false
  | Scalar.finite _, Scalar.posInf => true
  | Scalar.finite _, Scalar.negInf => false

/-- The maximum `std::max(a, b)`, that is `(a < b) ? b : a`. -/
def Scalar.max (a b : Scalar) : Scalar := if Scalar.lt a b then b else a

/-- `comm_.max(x)` over IEEE scalars. -/
def commMax (comm : Comm Scalar numEq) (sel : Partials Scalar numEq → Scalar) (x : Scalar) :
    Scalar :=
  (comm.others.map sel).foldl Scalar.max x

/-- `comm_.sum(x)` over IEEE scalars. -/
def commSum (comm : Comm Scalar numEq) (sel : Partials Scalar numEq → Scalar) (x : Scalar) :
    Scalar :=
  (comm.others.map sel).foldl Scalar.add x

/-- `comm_.sum(x)` for a `FieldVector` over IEEE scalars. -/
def commSumVec (comm : Comm Scalar numEq) (x : EqVector Scalar numEq) :
    EqVector Scalar numEq :=
  fun eqIdx => commSum comm (fun p => p.componentSumError eqIdx) (x eqIdx)

/-- One pass through the body of the loop over `eqIdx` (source lines 147-155), over
IEEE scalars. -/
def eqLoopBody (sim : Simulator Scalar numEq) (dt tolerance_ : Scalar) (dofIdx : Nat)
    (r : EqVector Scalar numEq) (pvValue : Scalar) (st : EqState Scalar numEq)
    (eqIdx : Fin numEq) : EqState Scalar numEq :=
  let tmpError := Scalar.div (Scalar.mul (Scalar.mul (r eqIdx) dt) (sim.eqWeight dofIdx eqIdx))
    pvValue
  let tmpError2 := Scalar.mul (r eqIdx) (sim.eqWeight dofIdx eqIdx)
  { error_ := Scalar.max (Scalar.abs tmpError) st.error_
    cnvViolated := if Scalar.lt tolerance_ (Scalar.abs tmpError) then true else st.cnvViolated
    componentSumError :=
      Function.update st.componentSumError eqIdx
        (Scalar.add (st.componentSumError eqIdx) (Scalar.abs tmpError2)) }

/-- One pass through the body of the loop over `dofIdx` (source lines 125-158), over
IEEE scalars. -/
def dofLoopBody (sim : Simulator Scalar numEq) (currentResidual : GlobalEqVector Scalar numEq)
    (dt tolerance_ : Scalar) (st : ScanState Scalar numEq) (dofIdx : Nat) :
    ScanState Scalar numEq :=
  if decide (dofIdx ≥ sim.numGridDof) ||
      Scalar.le (sim.dofTotalVolume dofIdx) (Scalar.finite 0) then st
  else if !sim.isLocalDof dofIdx then st
  else if sim.enableConstraints && decide (sim.constraintsMap.count dofIdx > 0) then st
  else
    let r := currentResidual.block dofIdx
    let pvValue := Scalar.mul (sim.porosity dofIdx) (sim.dofTotalVolume dofIdx)
    let inner := (List.finRange numEq).foldl (eqLoopBody sim dt tolerance_ dofIdx r pvValue)
      { error_ := st.error_, cnvViolated := false, componentSumError := st.componentSumError }
    { error_ := inner.error_
      componentSumError := inner.componentSumError
      sumPv := Scalar.add st.sumPv pvValue
      errorPvFraction_ := if inner.cnvViolated then Scalar.add st.errorPvFraction_ pvValue
        else st.errorPvFraction_ }

/-- The loop over the DOFs of `preSolve_` with its initialisation (source lines
118-159), over IEEE scalars. -/
def localScan (sim : Simulator Scalar numEq) (currentResidual : GlobalEqVector Scalar numEq)
    (tolerance_ : Scalar) : ScanState Scalar numEq :=
  (List.range currentResidual.size).foldl
    (dofLoopBody sim currentResidual sim.timeStepSize tolerance_)
    { error_ := Scalar.finite 0, componentSumError := fun _ => Scalar.finite 0,
      sumPv := Scalar.finite 0, errorPvFraction_ := Scalar.finite 0 }

/-- The loop computing `errorSum_` (source lines 172-174), over IEEE scalars. -/
def errorSumLoop (componentSumError : EqVector Scalar numEq) : Scalar :=
  (List.finRange numEq).foldl
    (fun errorSum_ eqIdx => Scalar.max (Scalar.abs (componentSumError eqIdx)) errorSum_)
    (Scalar.finite 0)

/-- The method `preSolve_` over IEEE scalars: the members after the call, and
whether the call returned or threw. -/
def preSolve_ (sim : Simulator Scalar numEq) (params : Params Scalar) (cbrt : Scalar → Scalar)
    (comm : Comm Scalar numEq) (currentResidual : GlobalEqVector Scalar numEq)
    (self : EclNewtonMethod Scalar) :
    EclNewtonMethod Scalar × Except (NumericalIssue Scalar) Unit :=
  let newtonMaxError := params.newtonMaxError
  let dt := sim.timeStepSize
  let scan := localScan sim currentResidual self.tolerance_
  let error_ := commMax comm (fun p => p.error) scan.error_
  let componentSumError := commSumVec comm scan.componentSumError
  let sumPv := commSum comm (fun p => p.sumPv) scan.sumPv
  let errorPvFraction_ := commSum comm (fun p => p.errorPvFraction) scan.errorPvFraction_
  let componentSumError : EqVector Scalar numEq :=
    fun eqIdx => Scalar.div (componentSumError eqIdx) sumPv
  let componentSumError : EqVector Scalar numEq :=
    fun eqIdx => Scalar.mul (componentSumError eqIdx) dt
  let errorPvFraction_ := Scalar.div errorPvFraction_ sumPv
  let errorSum_ := errorSumLoop componentSumError
  let sumTolerance_ := Scalar.mul params.newtonSumTolerance (cbrt sumPv)
  let self1 : EclNewtonMethod Scalar :=
    { error_ := error_
      lastError_ := self.error_
      tolerance_ := self.tolerance_
      numIterations_ := self.numIterations_
      errorPvFraction_ := errorPvFraction_
      errorSum_ := errorSum_
      relaxedTolerance_ := self.relaxedTolerance_
      sumTolerance_ := sumTolerance_ }
  if Scalar.lt newtonMaxError error_ then
    (self1, Except.error (NumericalIssue.errorTooLarge error_ newtonMaxError))
  else if Scalar.lt newtonMaxError errorSum_ then
    (self1, Except.error (NumericalIssue.errorSumTooLarge errorSum_ newtonMaxError))
  else
    (self1, Except.ok ())

/-- Whether a call of `preSolve_` over IEEE scalars threw. -/
def threw (result : EclNewtonMethod Scalar × Except (NumericalIssue Scalar) Unit) : Bool :=
  match result.2 with
  | Except.ok _ => false
  | Except.error _ => true

/-- The communicator of a sequential run. -/
def sequential : Comm Scalar numEq where
  others := []

/-- A simulator with finite values, over IEEE scalars. -/
def ofSimulator (sim : Simulator ℚ numEq) : Simulator Scalar numEq where
  timeStepSize := Scalar.finite sim.timeStepSize
  porosity := fun dofIdx => Scalar.finite (sim.porosity dofIdx)
  numGridDof := sim.numGridDof
  dofTotalVolume := fun dofIdx => Scalar.finite (sim.dofTotalVolume dofIdx)
  isLocalDof := sim.isLocalDof
  eqWeight := fun dofIdx eqIdx => Scalar.finite (sim.eqWeight dofIdx eqIdx)
  constraintsMap := sim.constraintsMap
  enableConstraints := sim.enableConstraints

/-- A residual with finite entries, over IEEE scalars. -/
def ofResidual (r : GlobalEqVector ℚ numEq) : GlobalEqVector Scalar numEq where
  size := r.size
  block := fun dofIdx eqIdx => Scalar.finite (r.block dofIdx eqIdx)

/-- Finite run-time parameters, over IEEE scalars. -/
def ofParams (params : Params ℚ) : Params Scalar where
  newtonMaxError := Scalar.finite params.newtonMaxError
  newtonSumTolerance := Scalar.finite params.newtonSumTolerance

/-- A Newton method with finite members, over IEEE scalars. -/
def ofMethod (self : EclNewtonMethod ℚ) : EclNewtonMethod Scalar where
  error_ := Scalar.finite self.error_
  lastError_ := Scalar.finite self.lastError_
  tolerance_ := Scalar.finite self.tolerance_
  numIterations_ := self.numIterations_
  errorPvFraction_ := Scalar.finite self.errorPvFraction_
  errorSum_ := Scalar.finite self.errorSum_
  relaxedTolerance_ := Scalar.finite self.relaxedTolerance_
  sumTolerance_ := Scalar.finite self.sumTolerance_

/-- A function on the finite values, over IEEE scalars; it keeps the infinities and
NaN, as `std::cbrt` does. -/
def ofFunction (f : ℚ → ℚ) : Scalar → Scalar
  | Scalar.finite a => Scalar.finite (f a)
  | Scalar.posInf => Scalar.posInf
  | Scalar.negInf => Scalar.negInf
  | Scalar.nan => Scalar.nan

end Ieee

end Ewoms

namespace Dune

/-! ## The Dirichlet constraints of the box scheme

A shallow embedding of `Dune::BoxDirichletConstraints::boundary`
(`dumux/boxmodels/pdelab/boxdirichletconstraints.hh`).  The boundary-condition
flags (`Dune::BoundaryConditions::Flags`), the row type of the transformation,
the reference element, the finite-volume geometry, the local finite element and
the problem are not part of the sources: the flag type `B` with its value
`dirichlet` and the row type `Row` with its default-constructed value `empty`
are parameters, and what `boundary` reads of the other collaborators are fields
of `LocalCoefficients`, `FaceGeometry` and `Problem`. -/

/-- The `LocalKey` of a local coefficient: `subEntity()` and `codim()`. -/
structure LocalKey where
  subEntity : Nat
  codim : Nat

/-- What `boundary` reads of `lfs.localFiniteElement().localCoefficients()`:
`size()` and `localKey(i)`. -/
structure LocalCoefficients where
  size : Nat
  localKey : Nat → LocalKey

/-- What `boundary` reads of the intersection, the reference element and the
finite-volume geometry of the inside element: `ig.indexInInside()`, the dimension
`dim`, `refelem.size(face, 1, dim)`, `refelem.subEntity(face, 1, faceVertIdx, dim)`
and `fvElemGeom.boundaryFaceIndex(face, faceVertIdx)`. -/
structure FaceGeometry where
  indexInInside : Nat
  dim : Nat
  size : Nat → Nat
  subEntity : Nat → Nat → Nat
  boundaryFaceIndex : Nat → Nat → Nat

/-- The C++ type `BoundaryTypeVector` (`Dune::FieldVector<Flags, numEq>`). -/
abbrev BoundaryTypeVector (B : Type) (numEq : Nat) : Type := Fin numEq → B

/-- The method `problem_.boundaryTypes(bcTypes, element, fvElemGeom, intersection,
elemVertIdx, boundaryFaceIdx)` for the element and intersection of the call: it
receives `bcTypes` by reference, so its result may depend on the vector it is
handed. -/
structure Problem (B : Type) (numEq : Nat) where
  boundaryTypes : BoundaryTypeVector B numEq → Nat → Nat → BoundaryTypeVector B numEq

/-- The transformation `trafo`: the row stored at each local index, if any. -/
abbrev Trafo (Row : Type) : Type := Nat → Option Row

/-- The local variables that the loop over the vertices of the face changes. -/
structure BoundaryState (B Row : Type) (numEq : Nat) where
  bcTypes : BoundaryTypeVector B numEq
  trafo : Trafo Row

variable {B Row : Type} [DecidableEq B] {numEq : Nat}

/-- One pass through the body of the loop over the local coefficients (source
lines 83-93). -/
def coeffLoopBody (dim : Nat) (coeffs : LocalCoefficients) (dirichlet : B)
    (eqIdx : Fin numEq) (empty : Row) (bcTypes : BoundaryTypeVector B numEq)
    (elemVertIdx : Nat) (trafo : Trafo Row) (i : Nat) : Trafo Row :=
  let codim := (coeffs.localKey i).codim
  if codim ≠ dim then trafo
  else if (coeffs.localKey i).subEntity ≠ elemVertIdx then trafo
  else if bcTypes eqIdx = dirichlet then Function.update trafo i (some empty)
  else trafo

/-- One pass through the body of the loop over the vertices of the face (source
lines 77-94). -/
def faceVertLoopBody (problem : Problem B numEq) (ig : FaceGeometry)
    (coeffs : LocalCoefficients) (dirichlet : B) (eqIdx : Fin numEq) (empty : Row)
    (st : BoundaryState B Row numEq) (faceVertIdx : Nat) : BoundaryState B Row numEq :=
  let face := ig.indexInInside
  let elemVertIdx := ig.subEntity face faceVertIdx
  let boundaryFaceIdx := ig.boundaryFaceIndex face faceVertIdx
  let bcTypes := problem.boundaryTypes st.bcTypes elemVertIdx boundaryFaceIdx
  { bcTypes := bcTypes
    trafo := (List.range coeffs.size).foldl
      (coeffLoopBody ig.dim coeffs dirichlet eqIdx empty bcTypes elemVertIdx) st.trafo }

/-- The method `BoxDirichletConstraints::boundary`: the transformation after the
call.  `bcTypes` is the value of the uninitialised local vector of that name. -/
def BoxDirichletConstraints.boundary (problem : Problem B numEq) (ig : FaceGeometry)
    (coeffs : LocalCoefficients) (dirichlet : B) (eqIdx : Fin numEq) (empty : Row)
    (bcTypes : BoundaryTypeVector B numEq) (trafo : Trafo Row) : Trafo Row :=
  ((List.range (ig.size ig.indexInInside)).foldl
    (faceVertLoopBody problem ig coeffs dirichlet eqIdx empty)
    { bcTypes := bcTypes, trafo := trafo }).trafo

/-- The boundary types that `boundary` holds after the call of
`problem_.boundaryTypes` for the vertices `0, …, n - 1` of the face. -/
def bcTypesAfter (problem : Problem B numEq) (ig : FaceGeometry)
    (bcTypes : BoundaryTypeVector B numEq) (n : Nat) : BoundaryTypeVector B numEq :=
  (List.range n).foldl
    (fun bc faceVertIdx => problem.boundaryTypes bc
      (ig.subEntity ig.indexInInside faceVertIdx)
      (ig.boundaryFaceIndex ig.indexInInside faceVertIdx)) bcTypes

/-- Local coefficient `i` is attached to a vertex (`codim == dim`) that is a vertex
of the face at which the boundary type of equation `eqIdx` is `dirichlet`. -/
def onDirichletVertex (problem : Problem B numEq) (ig : FaceGeometry)
    (coeffs : LocalCoefficients) (dirichlet : B) (eqIdx : Fin numEq)
    (bcTypes : BoundaryTypeVector B numEq) (i : Nat) : Prop :=
  i < coeffs.size ∧ (coeffs.localKey i).codim = ig.dim ∧
    ∃ faceVertIdx < ig.size ig.indexInInside,
      (coeffs.localKey i).subEntity = ig.subEntity ig.indexInInside faceVertIdx ∧
        bcTypesAfter problem ig bcTypes (faceVertIdx + 1) eqIdx = dirichlet

/-! ### Concrete data for the example -/

/-- Boundary-condition flags for the example, named as in
`Dune::BoundaryConditions::Flags`. -/
inductive ExampleFlags where
  | neumann
  | process
  | dirichlet
deriving DecidableEq

/-- A triangle (`dim = 2`) seen from its face 0, whose vertices are the element
vertices 0 and 1. -/
def triangleFace : FaceGeometry where
  indexInInside := 0
  dim := 2
  size := fun _ => 2
  subEntity := fun _ faceVertIdx => faceVertIdx
  boundaryFaceIndex := fun _ faceVertIdx => faceVertIdx

/-- The local coefficients of the linear element on the triangle: coefficient `i`
is attached to vertex `i`; a fourth coefficient is attached to the element. -/
def triangleCoefficients : LocalCoefficients where
  size := 4
  localKey := fun i => if i < 3 then { subEntity := i, codim := 2 }
    else { subEntity := 0, codim := 0 }

/-- A problem with one equation that is Dirichlet at element vertex 0 and Neumann
elsewhere. -/
def dirichletAtVertex0 : Problem ExampleFlags 1 where
  boundaryTypes := fun _ elemVertIdx _ _ =>
    if elemVertIdx = 0 then ExampleFlags.dirichlet else ExampleFlags.neumann

/-- A transformation with the row `[7]` at every local index; rows are lists. -/
def fullTrafo : Trafo (List Nat) := fun _ => some [7]

end Dune

namespace Ewoms

variable {K : Type} [LinearOrderedField K] {numEq : Nat}

/-! ## The loops of `preSolve_` in closed form -/

theorem dofLoopBody_of_not_eligible (sim : Simulator K numEq) (r : GlobalEqVector K numEq)
    (dt tol : K) (st : ScanState K numEq) (d : Nat) (h : ¬ sim.eligible d) :
    dofLoopBody sim r dt tol st d = st := by
  unfold dofLoopBody
  by_cases h1 : d ≥ sim.numGridDof
  · simp [h1]
  by_cases h2 : sim.dofTotalVolume d ≤ 0
  · simp [h2]
  by_cases h3 : sim.isLocalDof d = true
  · have h4 : sim.constrained d := by
      by_contra h4
      exact h ⟨not_le.mp h1, not_le.mp h2, h3, h4⟩
    have h5 : 0 < List.count d sim.constraintsMap := List.count_pos_iff.mpr h4.2
    simp [h1, h2, h3, h4.1, h5]
  · simp [h1, h2, h3]

theorem dofLoopBody_of_eligible (sim : Simulator K numEq) (r : GlobalEqVector K numEq)
    (dt tol : K) (st : ScanState K numEq) (d : Nat) (h : sim.eligible d) :
    dofLoopBody sim r dt tol st d =
      let inner := (List.finRange numEq).foldl
        (eqLoopBody sim dt tol d (r.block d) (sim.pvValue d))
        { error_ := st.error_, cnvViolated := false, componentSumError := st.componentSumError }
      { error_ := inner.error_
        componentSumError := inner.componentSumError
        sumPv := st.sumPv + sim.pvValue d
        errorPvFraction_ := if inner.cnvViolated then st.errorPvFraction_ + sim.pvValue d
          else st.errorPvFraction_ } := by
  obtain ⟨h1, h2, h3, h4⟩ := h
  have h5 : ¬ (sim.enableConstraints = true ∧ 0 < List.count d sim.constraintsMap) := by
    rintro ⟨ha, hb⟩
    exact h4 ⟨ha, List.count_pos_iff.mp hb⟩
  unfold dofLoopBody Simulator.pvValue
  have h1' : ¬ d ≥ sim.numGridDof := not_le.mpr h1
  have h2' : ¬ sim.dofTotalVolume d ≤ 0 := not_le.mpr h2
  simp only [h1', h2', h3, decide_False, Bool.or_self, Bool.false_eq_true, if_false, Bool.not_true]
  rw [if_neg]
  simpa using h5

/-! ### The loop over the equations of one DOF -/

section inner
variable (sim : Simulator K numEq) (dt tol : K) (d : Nat) (r : EqVector K numEq) (pv : K)

theorem eqLoop_error_le_iff (l : List (Fin numEq)) (st : EqState K numEq) (c : K) :
    (l.foldl (eqLoopBody sim dt tol d r pv) st).error_ ≤ c ↔
      st.error_ ≤ c ∧ ∀ e ∈ l, |r e * dt * sim.eqWeight d e / pv| ≤ c := by
  induction l generalizing st with
  | nil => simp
  | cons e l ih =>
    rw [List.foldl_cons, ih]
    simp only [eqLoopBody, max_le_iff, List.mem_cons, forall_eq_or_imp]
    tauto

theorem eqLoop_error_attained (l : List (Fin numEq)) (st : EqState K numEq) :
    (l.foldl (eqLoopBody sim dt tol d r pv) st).error_ = st.error_ ∨
      ∃ e ∈ l, (l.foldl (eqLoopBody sim dt tol d r pv) st).error_ =
        |r e * dt * sim.eqWeight d e / pv| := by
  induction l generalizing st with
  | nil => simp
  | cons e l ih =>
    rw [List.foldl_cons]
    rcases ih (eqLoopBody sim dt tol d r pv st e) with h | ⟨e', he', h⟩
    · rw [h]
      simp only [eqLoopBody]
      rcases max_choice |r e * dt * sim.eqWeight d e / pv| st.error_ with h' | h'
      · right; exact ⟨e, List.mem_cons_self _ _, h'⟩
      · left; exact h'
    · right; exact ⟨e', List.mem_cons_of_mem _ he', h⟩

theorem eqLoop_cnvViolated (l : List (Fin numEq)) (st : EqState K numEq) :
    (l.foldl (eqLoopBody sim dt tol d r pv) st).cnvViolated = true ↔
      st.cnvViolated = true ∨ ∃ e ∈ l, |r e * dt * sim.eqWeight d e / pv| > tol := by
  induction l generalizing st with
  | nil => simp
  | cons e l ih =>
    rw [List.foldl_cons, ih]
    simp only [eqLoopBody, List.mem_cons, exists_eq_or_imp]
    by_cases h : |r e * dt * sim.eqWeight d e / pv| > tol
    · simp [h]
    · simp [h]

theorem eqLoop_componentSumError (l : List (Fin numEq)) (st : EqState K numEq)
    (e' : Fin numEq) :
    (l.foldl (eqLoopBody sim dt tol d r pv) st).componentSumError e' =
      st.componentSumError e' + (l.count e' : K) * |r e' * sim.eqWeight d e'| := by
  induction l generalizing st with
  | nil => simp
  | cons e l ih =>
    rw [List.foldl_cons, ih]
    simp only [eqLoopBody]
    by_cases h : e' = e
    · subst h
      simp [Function.update_same]
      ring
    · have h' : e ≠ e' := fun h'' => h h''.symm
      have hc : List.count e' (e :: l) = List.count e' l := by
        rw [List.count_cons]; simp [h']
      simp [Function.update_noteq h, hc]

end inner

/-! ### The loop over the DOFs -/

section outer
variable (sim : Simulator K numEq) (r : GlobalEqVector K numEq) (tol : K)

theorem dofLoopBody_sumPv (st : ScanState K numEq) (d : Nat) :
    (dofLoopBody sim r sim.timeStepSize tol st d).sumPv =
      st.sumPv + if sim.eligible d then sim.pvValue d else 0 := by
  by_cases h : sim.eligible d
  · rw [dofLoopBody_of_eligible sim r _ tol st d h]; simp [h]
  · rw [dofLoopBody_of_not_eligible sim r _ tol st d h]; simp [h]

theorem dofLoopBody_componentSumError (st : ScanState K numEq) (d : Nat) (e : Fin numEq) :
    (dofLoopBody sim r sim.timeStepSize tol st d).componentSumError e =
      st.componentSumError e +
        if sim.eligible d then |r.block d e * sim.eqWeight d e| else 0 := by
  by_cases h : sim.eligible d
  · rw [dofLoopBody_of_eligible sim r _ tol st d h]
    simp only [h, if_true]
    rw [eqLoop_componentSumError, List.count_eq_one_of_mem (List.nodup_finRange numEq)
      (List.mem_finRange e)]
    simp
  · rw [dofLoopBody_of_not_eligible sim r _ tol st d h]; simp [h]

theorem dofLoopBody_errorPvFraction (st : ScanState K numEq) (d : Nat) :
    (dofLoopBody sim r sim.timeStepSize tol st d).errorPvFraction_ =
      st.errorPvFraction_ +
        if sim.eligible d ∧ violating sim r tol d then sim.pvValue d else 0 := by
  by_cases h : sim.eligible d
  · rw [dofLoopBody_of_eligible sim r _ tol st d h]
    have hv : ((List.finRange numEq).foldl
        (eqLoopBody sim sim.timeStepSize tol d (r.block d) (sim.pvValue d))
        { error_ := st.error_, cnvViolated := false,
          componentSumError := st.componentSumError }).cnvViolated = true ↔
        violating sim r tol d := by
      rw [eqLoop_cnvViolated]
      simp [violating, scaledError, List.mem_finRange]
    by_cases hv' : violating sim r tol d
    · simp [h, hv', hv.mpr hv']
    · have : ¬ _ := fun h' => hv' (hv.mp h')
      simp [h, hv', this]
  · rw [dofLoopBody_of_not_eligible sim r _ tol st d h]; simp [h]

theorem dofLoopBody_error_le_iff (st : ScanState K numEq) (d : Nat) (c : K) :
    (dofLoopBody sim r sim.timeStepSize tol st d).error_ ≤ c ↔
      st.error_ ≤ c ∧ (sim.eligible d → ∀ e, |scaledError sim r d e| ≤ c) := by
  by_cases h : sim.eligible d
  · rw [dofLoopBody_of_eligible sim r _ tol st d h]
    simp only [eqLoop_error_le_iff, List.mem_finRange, true_implies, h, scaledError]
  · rw [dofLoopBody_of_not_eligible sim r _ tol st d h]; simp [h]

theorem dofLoopBody_error_attained (st : ScanState K numEq) (d : Nat) :
    (dofLoopBody sim r sim.timeStepSize tol st d).error_ = st.error_ ∨
      (sim.eligible d ∧ ∃ e, (dofLoopBody sim r sim.timeStepSize tol st d).error_ =
        |scaledError sim r d e|) := by
  by_cases h : sim.eligible d
  · rw [dofLoopBody_of_eligible sim r _ tol st d h]
    rcases eqLoop_error_attained sim sim.timeStepSize tol d (r.block d) (sim.pvValue d)
      (List.finRange numEq)
      { error_ := st.error_, cnvViolated := false, componentSumError := st.componentSumError }
      with h' | ⟨e, _, h'⟩
    · left; exact h'
    · right; exact ⟨h, e, h'⟩
  · rw [dofLoopBody_of_not_eligible sim r _ tol st d h]; left; rfl

/-- The state of the loop over the DOFs after the first `n` DOFs. -/
theorem scan_succ (st : ScanState K numEq) (n : Nat) :
    (List.range (n + 1)).foldl (dofLoopBody sim r sim.timeStepSize tol) st =
      dofLoopBody sim r sim.timeStepSize tol
        ((List.range n).foldl (dofLoopBody sim r sim.timeStepSize tol) st) n := by
  rw [List.range_succ, List.foldl_append]; rfl

theorem localScan_sumPv : (localScan sim r tol).sumPv = totalPoreVolume sim r.size := by
  unfold localScan totalPoreVolume Simulator.eligibleDofs
  rw [Finset.sum_filter]
  induction r.size with
  | zero => simp
  | succ n ih => rw [scan_succ, dofLoopBody_sumPv, ih, Finset.sum_range_succ]

theorem localScan_componentSumError (e : Fin numEq) :
    (localScan sim r tol).componentSumError e =
      ∑ d ∈ sim.eligibleDofs r.size, |r.block d e * sim.eqWeight d e| := by
  unfold localScan Simulator.eligibleDofs
  rw [Finset.sum_filter]
  induction r.size with
  | zero => simp
  | succ n ih => rw [scan_succ, dofLoopBody_componentSumError, ih, Finset.sum_range_succ]

theorem localScan_errorPvFraction :
    (localScan sim r tol).errorPvFraction_ =
      ∑ d ∈ (sim.eligibleDofs r.size).filter (violating sim r tol), sim.pvValue d := by
  unfold localScan Simulator.eligibleDofs
  rw [Finset.filter_filter, Finset.sum_filter]
  induction r.size with
  | zero => simp
  | succ n ih => rw [scan_succ, dofLoopBody_errorPvFraction, ih, Finset.sum_range_succ]

theorem localScan_error_le_iff (c : K) :
    (localScan sim r tol).error_ ≤ c ↔
      0 ≤ c ∧ ∀ d ∈ sim.eligibleDofs r.size, ∀ e, |scaledError sim r d e| ≤ c := by
  unfold localScan Simulator.eligibleDofs
  induction r.size with
  | zero => simp
  | succ n ih =>
    rw [scan_succ, dofLoopBody_error_le_iff, ih]
    simp only [Finset.mem_filter, Finset.mem_range, Nat.lt_succ_iff, and_imp]
    constructor
    · rintro ⟨⟨h0, h1⟩, h2⟩
      refine ⟨h0, fun d hd he e => ?_⟩
      rcases Nat.lt_or_eq_of_le hd with h | h
      · exact h1 d h he e
      · subst h; exact h2 he e
    · rintro ⟨h0, h1⟩
      exact ⟨⟨h0, fun d hd he e => h1 d (Nat.le_of_lt hd) he e⟩, fun he e => h1 n le_rfl he e⟩

theorem localScan_error_attained :
    (localScan sim r tol).error_ = 0 ∨
      ∃ d ∈ sim.eligibleDofs r.size, ∃ e, (localScan sim r tol).error_ =
        |scaledError sim r d e| := by
  unfold localScan Simulator.eligibleDofs
  induction r.size with
  | zero => simp
  | succ n ih =>
    rw [scan_succ]
    rcases dofLoopBody_error_attained sim r tol
      ((List.range n).foldl (dofLoopBody sim r sim.timeStepSize tol)
        { error_ := 0, componentSumError := fun _ => 0, sumPv := 0, errorPvFraction_ := 0 }) n
      with h | ⟨he, e, h⟩
    · rw [h]
      rcases ih with h' | ⟨d, hd, e, h'⟩
      · left; exact h'
      · right
        simp only [Finset.mem_filter, Finset.mem_range] at hd ⊢
        exact ⟨d, ⟨Nat.lt_succ_of_lt hd.1, hd.2⟩, e, h'⟩
    · right
      exact ⟨n, by simp [he], e, h⟩

end outer

/-! ### The data members after `preSolve_` -/

section whole
variable (sim : Simulator K numEq) (params : Params K) (cbrt : K → K) (comm : Comm K numEq)
  (r : GlobalEqVector K numEq) (self : EclNewtonMethod K)

theorem errorSumLoop_le_iff (v : EqVector K numEq) (c : K) :
    errorSumLoop v ≤ c ↔ 0 ≤ c ∧ ∀ e, |v e| ≤ c := by
  have key : ∀ (l : List (Fin numEq)) (a : K),
      l.foldl (fun errorSum_ eqIdx => max |v eqIdx| errorSum_) a ≤ c ↔
        a ≤ c ∧ ∀ e ∈ l, |v e| ≤ c := by
    intro l
    induction l with
    | nil => simp
    | cons e l ih =>
      intro a
      rw [List.foldl_cons, ih]
      simp only [max_le_iff, List.mem_cons, forall_eq_or_imp]
      tauto
  unfold errorSumLoop
  rw [key]
  simp [List.mem_finRange]

theorem errorSumLoop_attained (v : EqVector K numEq) :
    errorSumLoop v = 0 ∨ ∃ e, errorSumLoop v = |v e| := by
  have key : ∀ (l : List (Fin numEq)) (a : K),
      l.foldl (fun errorSum_ eqIdx => max |v eqIdx| errorSum_) a = a ∨
        ∃ e, l.foldl (fun errorSum_ eqIdx => max |v eqIdx| errorSum_) a = |v e| := by
    intro l
    induction l with
    | nil => simp
    | cons e l ih =>
      intro a
      rw [List.foldl_cons]
      rcases ih (max |v e| a) with h | h
      · rw [h]
        rcases max_choice |v e| a with h' | h'
        · right; exact ⟨e, h'⟩
        · left; exact h'
      · right; exact h
  exact key _ _

theorem preSolve_error :
    (self.preSolve_ sim params cbrt comm r).1.error_ =
      comm.max (fun p => p.error) (localScan sim r self.tolerance_).error_ := by
  unfold EclNewtonMethod.preSolve_; dsimp only; split_ifs <;> rfl

theorem preSolve_lastError :
    (self.preSolve_ sim params cbrt comm r).1.lastError_ = self.error_ := by
  unfold EclNewtonMethod.preSolve_; dsimp only; split_ifs <;> rfl

theorem preSolve_tolerance :
    (self.preSolve_ sim params cbrt comm r).1.tolerance_ = self.tolerance_ := by
  unfold EclNewtonMethod.preSolve_; dsimp only; split_ifs <;> rfl

theorem preSolve_numIterations :
    (self.preSolve_ sim params cbrt comm r).1.numIterations_ = self.numIterations_ := by
  unfold EclNewtonMethod.preSolve_; dsimp only; split_ifs <;> rfl

theorem preSolve_relaxedTolerance :
    (self.preSolve_ sim params cbrt comm r).1.relaxedTolerance_ = self.relaxedTolerance_ := by
  unfold EclNewtonMethod.preSolve_; dsimp only; split_ifs <;> rfl

theorem preSolve_errorPvFraction :
    (self.preSolve_ sim params cbrt comm r).1.errorPvFraction_ =
      comm.sum (fun p => p.errorPvFraction) (localScan sim r self.tolerance_).errorPvFraction_ /
        comm.sum (fun p => p.sumPv) (localScan sim r self.tolerance_).sumPv := by
  unfold EclNewtonMethod.preSolve_; dsimp only; split_ifs <;> rfl

theorem preSolve_errorSum :
    (self.preSolve_ sim params cbrt comm r).1.errorSum_ =
      errorSumLoop (fun eqIdx =>
        comm.sumVec (localScan sim r self.tolerance_).componentSumError eqIdx /
          comm.sum (fun p => p.sumPv) (localScan sim r self.tolerance_).sumPv *
            sim.timeStepSize) := by
  unfold EclNewtonMethod.preSolve_; dsimp only; split_ifs <;> rfl

theorem preSolve_sumTolerance :
    (self.preSolve_ sim params cbrt comm r).1.sumTolerance_ =
      params.newtonSumTolerance *
        cbrt (comm.sum (fun p => p.sumPv) (localScan sim r self.tolerance_).sumPv) := by
  unfold EclNewtonMethod.preSolve_; dsimp only; split_ifs <;> rfl

theorem preSolve_threw :
    threw (self.preSolve_ sim params cbrt comm r) = true ↔
      (self.preSolve_ sim params cbrt comm r).1.error_ > params.newtonMaxError ∨
        (self.preSolve_ sim params cbrt comm r).1.errorSum_ > params.newtonMaxError := by
  rw [preSolve_error, preSolve_errorSum]
  unfold EclNewtonMethod.preSolve_ threw; dsimp only
  split_ifs with h1 h2
  · simp [h1]
  · simp [h2]
  · simp [h1, h2]

theorem comm_sequential_max (sel : Partials K numEq → K) (x : K) :
    (Comm.sequential : Comm K numEq).max sel x = x := rfl

theorem comm_sequential_sum (sel : Partials K numEq → K) (x : K) :
    (Comm.sequential : Comm K numEq).sum sel x = x := rfl

theorem comm_sequential_sumVec (x : EqVector K numEq) :
    (Comm.sequential : Comm K numEq).sumVec x = x := rfl

end whole

/-! ### Runs on several subdomains -/

section partition
variable {n : Nat} (sim : Simulator K numEq) (owner : Nat → Fin n)
  (r : GlobalEqVector K numEq) (tol : K)

theorem foldl_add_eq (l : List K) (a : K) : l.foldl (· + ·) a = a + l.sum := by
  induction l generalizing a with
  | nil => simp
  | cons x l ih => rw [List.foldl_cons, ih, List.sum_cons, add_assoc]

theorem foldl_max_le_iff (l : List K) (a c : K) :
    l.foldl Max.max a ≤ c ↔ a ≤ c ∧ ∀ x ∈ l, x ≤ c := by
  induction l generalizing a with
  | nil => simp
  | cons x l ih =>
    rw [List.foldl_cons, ih]
    simp only [max_le_iff, List.mem_cons, forall_eq_or_imp]
    tauto

theorem sum_others (f : Fin n → K) (p : Fin n) :
    (((List.finRange n).filter (fun q => q ≠ p)).map f).foldl (· + ·) (f p) = ∑ q, f q := by
  rw [foldl_add_eq, ← List.sum_toFinset f ((List.nodup_finRange n).filter _)]
  have : ((List.finRange n).filter (fun q => q ≠ p)).toFinset = Finset.univ.erase p := by
    ext q
    simp [List.mem_finRange]
  rw [this, Finset.add_sum_erase _ _ (Finset.mem_univ p)]

theorem subdomain_eligible (p : Fin n) (d : Nat) :
    (sim.subdomain owner p).eligible d ↔ sim.eligible d ∧ owner d = p := by
  simp only [Simulator.eligible, Simulator.subdomain, Simulator.constrained, Bool.and_eq_true,
    decide_eq_true_eq]
  tauto

theorem subdomain_eligibleDofs (p : Fin n) (size : Nat) :
    (sim.subdomain owner p).eligibleDofs size =
      (sim.eligibleDofs size).filter (fun d => owner d = p) := by
  ext d
  simp only [Simulator.eligibleDofs, Finset.mem_filter, subdomain_eligible]
  tauto

theorem subdomain_scaledError (p : Fin n) (d : Nat) (e : Fin numEq) :
    scaledError (sim.subdomain owner p) r d e = scaledError sim r d e := rfl

theorem subdomain_violating (p : Fin n) (d : Nat) :
    violating (sim.subdomain owner p) r tol d ↔ violating sim r tol d := Iff.rfl

theorem partition_sumPv (p : Fin n) :
    (partitionComm sim owner r tol p).sum (fun q => q.sumPv)
        (localScan (sim.subdomain owner p) r tol).sumPv =
      (localScan sim r tol).sumPv := by
  unfold Comm.sum partitionComm
  rw [List.map_map]
  have := sum_others (fun q => (localScan (sim.subdomain owner q) r tol).sumPv) p
  simp only [Function.comp_def, ScanState.toPartials] at this ⊢
  rw [this]
  simp only [localScan_sumPv, totalPoreVolume, subdomain_eligibleDofs]
  exact Finset.sum_fiberwise _ owner (fun d => sim.pvValue d)

theorem partition_componentSumError (p : Fin n) :
    (partitionComm sim owner r tol p).sumVec
        (localScan (sim.subdomain owner p) r tol).componentSumError =
      (localScan sim r tol).componentSumError := by
  funext e
  unfold Comm.sumVec Comm.sum partitionComm
  rw [List.map_map]
  have := sum_others (fun q => (localScan (sim.subdomain owner q) r tol).componentSumError e) p
  simp only [Function.comp_def, ScanState.toPartials] at this ⊢
  rw [this]
  simp only [localScan_componentSumError, subdomain_eligibleDofs]
  exact Finset.sum_fiberwise _ owner (fun d => |r.block d e * sim.eqWeight d e|)

theorem partition_errorPvFraction (p : Fin n) :
    (partitionComm sim owner r tol p).sum (fun q => q.errorPvFraction)
        (localScan (sim.subdomain owner p) r tol).errorPvFraction_ =
      (localScan sim r tol).errorPvFraction_ := by
  unfold Comm.sum partitionComm
  rw [List.map_map]
  have := sum_others (fun q => (localScan (sim.subdomain owner q) r tol).errorPvFraction_) p
  simp only [Function.comp_def, ScanState.toPartials] at this ⊢
  rw [this]
  simp only [localScan_errorPvFraction, subdomain_eligibleDofs]
  have hf : ∀ q : Fin n,
      ((sim.eligibleDofs r.size).filter (fun d => owner d = q)).filter
          (violating (sim.subdomain owner q) r tol) =
        ((sim.eligibleDofs r.size).filter (violating sim r tol)).filter
          (fun d => owner d = q) := by
    intro q
    ext d
    simp only [Finset.mem_filter, subdomain_violating]
    tauto
  simp only [hf]
  exact Finset.sum_fiberwise _ owner (fun d => sim.pvValue d)

theorem partition_error (p : Fin n) :
    (partitionComm sim owner r tol p).max (fun q => q.error)
        (localScan (sim.subdomain owner p) r tol).error_ =
      (localScan sim r tol).error_ := by
  apply eq_of_forall_ge_iff
  intro c
  unfold Comm.max partitionComm
  rw [foldl_max_le_iff, List.map_map, localScan_error_le_iff]
  simp only [List.mem_map, List.mem_filter, List.mem_finRange, true_and, Function.comp_def,
    ScanState.toPartials, decide_eq_true_eq, forall_exists_index, and_imp,
    forall_apply_eq_imp_iff₂, localScan_error_le_iff, subdomain_eligibleDofs,
    Finset.mem_filter, subdomain_scaledError]
  constructor
  · rintro ⟨⟨h0, hp⟩, hq⟩
    refine ⟨h0, fun d hd e => ?_⟩
    by_cases h : owner d = p
    · exact hp d hd h e
    · exact (hq (owner d) h).2 d hd rfl e
  · rintro ⟨h0, h⟩
    exact ⟨⟨h0, fun d hd _ e => h d hd e⟩, fun q _ => ⟨h0, fun d hd _ e => h d hd e⟩⟩

end partition

/-! ## Properties of `converged` and `preSolve_` -/

/-- C1: `converged()` returns `maxError < relaxedTolerance ∧ errorSum < sumTolerance`
when `violatingPoreVolumeFraction < 0.03` or `iterationCount > 8`, and
`maxError ≤ strictTolerance ∧ errorSum ≤ sumTolerance` otherwise, for every error
state, strict tolerance and iteration count. -/
theorem converged_regimes (self : EclNewtonMethod K) :
    self.converged =
      if self.errorPvFraction_ < 0.03 ∨ self.numIterations_ > 8 then
        decide (self.error_ < self.relaxedTolerance_ ∧ self.errorSum_ < self.sumTolerance_)
      else
        decide (self.error_ ≤ self.tolerance_ ∧ self.errorSum_ ≤ self.sumTolerance_) := by
  unfold EclNewtonMethod.converged EclNewtonMethod.numIterations EclNewtonMethod.tolerance
  by_cases h1 : self.errorPvFraction_ < 0.03
  · simp [h1]
  · by_cases h2 : self.numIterations_ > 8
    · simp [h1, h2]
    · simp [h1, h2]

/-- C2 as stated fails: with an all-zero residual on one eligible DOF of pore
volume 1, `preSolve_` throws when the ceiling is negative; `converged()` is false
afterwards when the sum-tolerance parameter is 0, and when the strict tolerance is
negative (the DOF then counts as violating and the strict test `0 ≤ -1` fails);
and `converged()` is false after a call on a residual without any DOF (there
`sumPv = 0` and `sumTolerance = 0`; the C++ code computes `errorSum = NaN`, and
its verdict is false as well). -/
theorem allZeroResidual_not_always_converged :
    threw ((freshMethod ⟨-1, 1⟩ (1 / 100) 0).preSolve_ unitSim ⟨-1, 1⟩ cbrtTable
        Comm.sequential (constResidual 1 0)) = true ∧
      ((freshMethod ⟨100, 0⟩ (1 / 100) 0).preSolve_ unitSim ⟨100, 0⟩ cbrtTable
        Comm.sequential (constResidual 1 0)).1.converged = false ∧
      ((freshMethod ⟨100, 1⟩ (-1) 0).preSolve_ unitSim ⟨100, 1⟩ cbrtTable
        Comm.sequential (constResidual 1 0)).1.converged = false ∧
      ((freshMethod ⟨100, 1⟩ (1 / 100) 0).preSolve_ unitSim ⟨100, 1⟩ cbrtTable
        Comm.sequential (constResidual 0 0)).1.converged = false := by
  refine ⟨?_, ?_, ?_, ?_⟩ <;>
  norm_num [EclNewtonMethod.preSolve_, EclNewtonMethod.converged,
    EclNewtonMethod.numIterations, EclNewtonMethod.tolerance, threw, localScan, dofLoopBody,
    eqLoopBody, errorSumLoop, unitSim, constResidual, cbrtTable, freshMethod,
    EclNewtonMethod.construct, Comm.sequential, Comm.max, Comm.sum, Comm.sumVec, List.range,
    List.range.loop, List.finRange]

/-- C2, amended: in a sequential run, if every residual entry is zero, at least
one DOF is eligible, every eligible DOF has positive porosity (hence positive pore
volume), the strict tolerance and the ceiling are not negative, the relaxed
tolerance and the sum-tolerance parameter are positive and `cbrt` is positive on
positive arguments, then `preSolve_` does not throw, leaves `maxError = 0` and
`errorSum = 0`, and `converged()` afterwards is true, for every iteration count. -/
theorem allZeroResidual_converged (sim : Simulator K numEq) (params : Params K)
    (cbrt : K → K) (r : GlobalEqVector K numEq) (self : EclNewtonMethod K)
    (hzero : ∀ d < r.size, ∀ e, r.block d e = 0)
    (helig : (sim.eligibleDofs r.size).Nonempty)
    (hpor : ∀ d ∈ sim.eligibleDofs r.size, 0 < sim.porosity d)
    (htol : 0 ≤ self.tolerance_)
    (hrelaxed : 0 < self.relaxedTolerance_)
    (hsum : 0 < params.newtonSumTolerance)
    (hcbrt : ∀ x, 0 < x → 0 < cbrt x)
    (hmax : 0 ≤ params.newtonMaxError) :
    threw (self.preSolve_ sim params cbrt Comm.sequential r) = false ∧
      (self.preSolve_ sim params cbrt Comm.sequential r).1.error_ = 0 ∧
      (self.preSolve_ sim params cbrt Comm.sequential r).1.errorSum_ = 0 ∧
      (self.preSolve_ sim params cbrt Comm.sequential r).1.converged = true := by
  have hse : ∀ d ∈ sim.eligibleDofs r.size, ∀ e, scaledError sim r d e = 0 := by
    intro d hd e
    have hd' : d < r.size := Finset.mem_range.mp (Finset.mem_filter.mp hd).1
    simp [scaledError, hzero d hd' e]
  have herr : (self.preSolve_ sim params cbrt Comm.sequential r).1.error_ = 0 := by
    rw [preSolve_error, comm_sequential_max]
    apply le_antisymm
    · rw [localScan_error_le_iff]
      exact ⟨le_rfl, fun d hd e => by rw [hse d hd e]; simp⟩
    · exact ((localScan_error_le_iff sim r self.tolerance_ _).mp le_rfl).1
  have hcse : ∀ e, (localScan sim r self.tolerance_).componentSumError e = 0 := by
    intro e
    rw [localScan_componentSumError]
    apply Finset.sum_eq_zero
    intro d hd
    have hd' : d < r.size := Finset.mem_range.mp (Finset.mem_filter.mp hd).1
    simp [hzero d hd' e]
  have hsumE : (self.preSolve_ sim params cbrt Comm.sequential r).1.errorSum_ = 0 := by
    rw [preSolve_errorSum, comm_sequential_sumVec]
    apply le_antisymm
    · rw [errorSumLoop_le_iff]
      exact ⟨le_rfl, fun e => by simp [hcse e]⟩
    · exact ((errorSumLoop_le_iff _ _).mp le_rfl).1
  have hpv : 0 < totalPoreVolume sim r.size := by
    apply Finset.sum_pos _ helig
    intro d hd
    exact mul_pos (hpor d hd) (Finset.mem_filter.mp hd).2.2.1
  have hfrac : (self.preSolve_ sim params cbrt Comm.sequential r).1.errorPvFraction_ = 0 := by
    rw [preSolve_errorPvFraction, comm_sequential_sum, localScan_errorPvFraction]
    have : (sim.eligibleDofs r.size).filter (violating sim r self.tolerance_) = ∅ := by
      apply Finset.filter_eq_empty_iff.mpr
      rintro d hd ⟨e, he⟩
      rw [hse d hd e, abs_zero] at he
      exact absurd he (not_lt.mpr htol)
    rw [this]
    simp
  have hst : 0 < (self.preSolve_ sim params cbrt Comm.sequential r).1.sumTolerance_ := by
    rw [preSolve_sumTolerance, comm_sequential_sum, localScan_sumPv]
    exact mul_pos hsum (hcbrt _ hpv)
  refine ⟨?_, herr, hsumE, ?_⟩
  · rw [Bool.eq_false_iff]
    intro h
    rw [preSolve_threw, herr, hsumE] at h
    rcases h with h | h <;> exact absurd h (not_lt.mpr hmax)
  · unfold EclNewtonMethod.converged
    rw [hfrac, herr, hsumE, preSolve_relaxedTolerance]
    have h3 : (0 : K) < 0.03 := by norm_num
    simp [h3, hrelaxed, hst]

/-- C2, amended, at a concrete input: one eligible DOF of pore volume 1 with zero
residual. -/
theorem allZeroResidual_converged_witness :
    threw ((freshMethod ⟨100, 1⟩ (1 / 100) 0).preSolve_ unitSim ⟨100, 1⟩ cbrtTable
        Comm.sequential (constResidual 1 0)) = false ∧
      ((freshMethod ⟨100, 1⟩ (1 / 100) 0).preSolve_ unitSim ⟨100, 1⟩ cbrtTable
        Comm.sequential (constResidual 1 0)).1.error_ = 0 ∧
      ((freshMethod ⟨100, 1⟩ (1 / 100) 0).preSolve_ unitSim ⟨100, 1⟩ cbrtTable
        Comm.sequential (constResidual 1 0)).1.errorSum_ = 0 ∧
      ((freshMethod ⟨100, 1⟩ (1 / 100) 0).preSolve_ unitSim ⟨100, 1⟩ cbrtTable
        Comm.sequential (constResidual 1 0)).1.converged = true :=
  allZeroResidual_converged unitSim ⟨100, 1⟩ cbrtTable (constResidual 1 0)
    (freshMethod ⟨100, 1⟩ (1 / 100) 0)
    (fun _ _ _ => rfl)
    ⟨0, by simp [Simulator.eligibleDofs, Simulator.eligible, Simulator.constrained, unitSim,
      constResidual]⟩
    (fun _ _ => by norm_num [unitSim])
    (by norm_num [freshMethod, EclNewtonMethod.construct])
    (by norm_num [freshMethod, EclNewtonMethod.construct])
    (by norm_num)
    (fun x hx => by unfold cbrtTable; split_ifs <;> [norm_num; exact hx])
    (by norm_num)
/-- C3: two residuals of equal size that differ only on DOFs which are auxiliary
(index `≥ numGridDof`), not local, or constrained (constraints are enabled and the
constraints map has an entry for the DOF), give the same result of `preSolve_`:
the same data members, `maxError`, `errorSum` and `violatingPoreVolumeFraction`
among them, and the same outcome.  In particular, arbitrary residual entries on
such DOFs give what zero entries give. -/
theorem preSolve_ignores_skipped_dofs (sim : Simulator K numEq) (params : Params K)
    (cbrt : K → K) (comm : Comm K numEq) (r r' : GlobalEqVector K numEq)
    (self : EclNewtonMethod K) (hsize : r.size = r'.size)
    (hsame : ∀ d, ¬ (d ≥ sim.numGridDof ∨ sim.isLocalDof d = false ∨ sim.constrained d) →
      r.block d = r'.block d) :
    self.preSolve_ sim params cbrt comm r = self.preSolve_ sim params cbrt comm r' := by
  have hbody : ∀ (st : ScanState K numEq) (d : Nat),
      dofLoopBody sim r sim.timeStepSize self.tolerance_ st d =
        dofLoopBody sim r' sim.timeStepSize self.tolerance_ st d := by
    intro st d
    by_cases h : sim.eligible d
    · have hb : r.block d = r'.block d := by
        apply hsame
        rintro (h1 | h1 | h1)
        · exact absurd h.1 (not_lt.mpr h1)
        · rw [h.2.2.1] at h1; exact Bool.noConfusion h1
        · exact h.2.2.2 h1
      rw [dofLoopBody_of_eligible sim r _ _ st d h, dofLoopBody_of_eligible sim r' _ _ st d h, hb]
    · rw [dofLoopBody_of_not_eligible sim r _ _ st d h,
        dofLoopBody_of_not_eligible sim r' _ _ st d h]
  have hscan : localScan sim r self.tolerance_ = localScan sim r' self.tolerance_ := by
    unfold localScan
    rw [hsize]
    congr 1
    funext st d
    exact hbody st d
  unfold EclNewtonMethod.preSolve_
  rw [hscan]

/-- C3 at a concrete input: DOF 1 of `auxResidual` is auxiliary for `unitSim`; the
residual 1000 on it gives what the residual 0 gives. -/
theorem preSolve_ignores_skipped_dofs_witness :
    (freshMethod ⟨100, 1⟩ (1 / 100) 0).preSolve_ unitSim ⟨100, 1⟩ cbrtTable Comm.sequential
        (auxResidual 1000) =
      (freshMethod ⟨100, 1⟩ (1 / 100) 0).preSolve_ unitSim ⟨100, 1⟩ cbrtTable Comm.sequential
        (auxResidual 0) :=
  preSolve_ignores_skipped_dofs unitSim ⟨100, 1⟩ cbrtTable Comm.sequential (auxResidual 1000)
    (auxResidual 0) (freshMethod ⟨100, 1⟩ (1 / 100) 0) rfl
    (fun d hd => by
      have h0 : d = 0 := by
        by_contra hne
        exact hd (Or.inl (Nat.one_le_iff_ne_zero.mpr hne))
      subst h0
      rfl)

/-- C4: `preSolve_` throws if and only if, after aggregation, `maxError` or
`errorSum` is above the ceiling `newtonMaxError`, whatever `converged()` says of
the same values; and there are calls that throw although `converged()`, evaluated
on the values they leave, is true, both with `violatingPoreVolumeFraction < 0.03`
and with more than 8 iterations. -/
theorem preSolve_throws_iff_above_ceiling :
    (∀ (K : Type) [LinearOrderedField K] (numEq : Nat) (sim : Simulator K numEq)
        (params : Params K) (cbrt : K → K) (comm : Comm K numEq)
        (r : GlobalEqVector K numEq) (self : EclNewtonMethod K),
        threw (self.preSolve_ sim params cbrt comm r) = true ↔
          (self.preSolve_ sim params cbrt comm r).1.error_ > params.newtonMaxError ∨
            (self.preSolve_ sim params cbrt comm r).1.errorSum_ > params.newtonMaxError) ∧
      (threw ((freshMethod ⟨1, 10⟩ 6 0).preSolve_ unitSim ⟨1, 10⟩ cbrtTable Comm.sequential
          (constResidual 1 5)) = true ∧
        ((freshMethod ⟨1, 10⟩ 6 0).preSolve_ unitSim ⟨1, 10⟩ cbrtTable Comm.sequential
          (constResidual 1 5)).1.errorPvFraction_ < 0.03 ∧
        ((freshMethod ⟨1, 10⟩ 6 0).preSolve_ unitSim ⟨1, 10⟩ cbrtTable Comm.sequential
          (constResidual 1 5)).1.converged = true) ∧
      (threw ((freshMethod ⟨1, 10⟩ (1 / 100) 9).preSolve_ unitSim ⟨1, 10⟩ cbrtTable
          Comm.sequential (constResidual 1 5)) = true ∧
        ((freshMethod ⟨1, 10⟩ (1 / 100) 9).preSolve_ unitSim ⟨1, 10⟩ cbrtTable
          Comm.sequential (constResidual 1 5)).1.converged = true) := by
  refine ⟨fun K _ numEq sim params cbrt comm r self => preSolve_threw sim params cbrt comm r self,
    ⟨?_, ?_, ?_⟩, ⟨?_, ?_⟩⟩ <;>
  norm_num [EclNewtonMethod.preSolve_, EclNewtonMethod.converged,
    EclNewtonMethod.numIterations, EclNewtonMethod.tolerance, threw, localScan, dofLoopBody,
    eqLoopBody, errorSumLoop, unitSim, constResidual, cbrtTable, freshMethod,
    EclNewtonMethod.construct, Comm.sequential, Comm.max, Comm.sum, Comm.sumVec, List.range,
    List.range.loop, List.finRange]

/-- C5: on an error state with `strictTolerance < maxError < relaxedTolerance` and
`errorSum < sumTolerance`, `converged()` is true when
`violatingPoreVolumeFraction < 0.03`, for every iteration count, and false when
`violatingPoreVolumeFraction ≥ 0.03` and `iterationCount ≤ 8`. -/
theorem converged_relaxation_boundary (self : EclNewtonMethod K)
    (hstrict : self.tolerance_ < self.error_) (hrelaxed : self.error_ < self.relaxedTolerance_)
    (hsum : self.errorSum_ < self.sumTolerance_) :
    (self.errorPvFraction_ < 0.03 → self.converged = true) ∧
      (self.errorPvFraction_ ≥ 0.03 → self.numIterations_ ≤ 8 → self.converged = false) := by
  unfold EclNewtonMethod.converged EclNewtonMethod.numIterations EclNewtonMethod.tolerance
  constructor
  · intro h
    simp [h, hrelaxed, hsum]
  · intro h1 h2
    have h1' : ¬ self.errorPvFraction_ < 0.03 := not_lt.mpr h1
    have h2' : ¬ self.numIterations_ > 8 := not_lt.mpr h2
    simp [h1', h2', hstrict]

/-- C5 at the fractions 0.02 and 0.10 of the specification, after 3 iterations. -/
theorem converged_relaxation_boundary_witness :
    (errorState 0.02 3).converged = true ∧ (errorState 0.10 3).converged = false :=
  ⟨(converged_relaxation_boundary (errorState 0.02 3) (by norm_num [errorState])
      (by norm_num [errorState]) (by norm_num [errorState])).1 (by norm_num [errorState]),
    (converged_relaxation_boundary (errorState 0.10 3) (by norm_num [errorState])
      (by norm_num [errorState]) (by norm_num [errorState])).2 (by norm_num [errorState])
      (by norm_num [errorState])⟩

/-- C6: on an error state with `maxError < relaxedTolerance` and
`errorSum < sumTolerance`, `converged()` is true at every iteration count above 8,
whatever `violatingPoreVolumeFraction` and the strict tolerance are. -/
theorem converged_iteration_budget (self : EclNewtonMethod K)
    (hrelaxed : self.error_ < self.relaxedTolerance_)
    (hsum : self.errorSum_ < self.sumTolerance_) (hiter : self.numIterations_ > 8) :
    self.converged = true := by
  unfold EclNewtonMethod.converged EclNewtonMethod.numIterations
  by_cases h : self.errorPvFraction_ < 0.03
  · simp [h, hrelaxed, hsum]
  · simp [h, hiter, hrelaxed, hsum]

/-- C6 at the fraction 0.10 and iteration count 9 of the specification. -/
theorem converged_iteration_budget_witness : (errorState 0.10 9).converged = true :=
  converged_iteration_budget (errorState 0.10 9) (by norm_num [errorState])
    (by norm_num [errorState]) (by norm_num [errorState])

/-- C7: partition invariance.  For every simulator and residual, every number
`n` of subdomains, every assignment `owner` of each DOF to one subdomain and
every subdomain `p` of the run, `preSolve_` on subdomain `p`, whose communicator
combines the local loops of all subdomains by global maximum and global sum,
gives what the sequential run on one subdomain gives: the same data members
(`maxError`, `errorSum`, `violatingPoreVolumeFraction`, `sumTolerance`), the same
outcome (return or throw) and the same verdict of `converged()`. -/
theorem preSolve_partition_invariant (sim : Simulator K numEq) (params : Params K)
    (cbrt : K → K) (r : GlobalEqVector K numEq) (self : EclNewtonMethod K) (n : Nat)
    (owner : Nat → Fin n) (p : Fin n) :
    self.preSolve_ (sim.subdomain owner p) params cbrt
        (partitionComm sim owner r self.tolerance_ p) r =
      self.preSolve_ sim params cbrt Comm.sequential r ∧
    (self.preSolve_ (sim.subdomain owner p) params cbrt
        (partitionComm sim owner r self.tolerance_ p) r).1.converged =
      (self.preSolve_ sim params cbrt Comm.sequential r).1.converged ∧
    threw (self.preSolve_ (sim.subdomain owner p) params cbrt
        (partitionComm sim owner r self.tolerance_ p) r) =
      threw (self.preSolve_ sim params cbrt Comm.sequential r) := by
  have key : self.preSolve_ (sim.subdomain owner p) params cbrt
        (partitionComm sim owner r self.tolerance_ p) r =
      self.preSolve_ sim params cbrt Comm.sequential r := by
    unfold EclNewtonMethod.preSolve_
    simp only [partition_error, partition_componentSumError, partition_sumPv,
      partition_errorPvFraction, comm_sequential_max, comm_sequential_sum,
      comm_sequential_sumVec]
    rfl
  exact ⟨key, by rw [key], by rw [key]⟩

/-- C8: after `preSolve_` (sequential run), `sumTolerance` is the sum-tolerance
parameter times `cbrt` of the sum of the pore volumes of the eligible DOFs.
Consequently, if a second simulator has the same eligible DOFs and `k` times the
pore volume on each DOF, then: the cube of `sumTolerance` is multiplied by `k`,
provided `cbrt` is a cube root at the two total pore volumes; and `sumTolerance`
is multiplied by `cbrt k`, provided `cbrt` is multiplicative there.  The cube root
of the real numbers meets both provisos at every argument. -/
theorem sumTolerance_scales_with_cube_root (sim sim' : Simulator K numEq) (params : Params K)
    (cbrt : K → K) (r : GlobalEqVector K numEq) (self : EclNewtonMethod K) (k : K) :
    (self.preSolve_ sim params cbrt Comm.sequential r).1.sumTolerance_ =
        params.newtonSumTolerance * cbrt (∑ d ∈ sim.eligibleDofs r.size, sim.pvValue d) ∧
      ((∀ d, sim'.eligible d ↔ sim.eligible d) → (∀ d, sim'.pvValue d = k * sim.pvValue d) →
        (cbrt (totalPoreVolume sim r.size) ^ 3 = totalPoreVolume sim r.size →
          cbrt (k * totalPoreVolume sim r.size) ^ 3 = k * totalPoreVolume sim r.size →
          (self.preSolve_ sim' params cbrt Comm.sequential r).1.sumTolerance_ ^ 3 =
            k * (self.preSolve_ sim params cbrt Comm.sequential r).1.sumTolerance_ ^ 3) ∧
        (cbrt (k * totalPoreVolume sim r.size) = cbrt k * cbrt (totalPoreVolume sim r.size) →
          (self.preSolve_ sim' params cbrt Comm.sequential r).1.sumTolerance_ =
            cbrt k * (self.preSolve_ sim params cbrt Comm.sequential r).1.sumTolerance_)) := by
  have h1 : (self.preSolve_ sim params cbrt Comm.sequential r).1.sumTolerance_ =
      params.newtonSumTolerance * cbrt (totalPoreVolume sim r.size) := by
    rw [preSolve_sumTolerance, comm_sequential_sum, localScan_sumPv]
  refine ⟨h1, fun helig hscale => ?_⟩
  have hE : sim'.eligibleDofs r.size = sim.eligibleDofs r.size := by
    ext d
    simp only [Simulator.eligibleDofs, Finset.mem_filter, helig]
  have hT : totalPoreVolume sim' r.size = k * totalPoreVolume sim r.size := by
    unfold totalPoreVolume
    rw [hE, Finset.mul_sum]
    exact Finset.sum_congr rfl (fun d _ => hscale d)
  have h2 : (self.preSolve_ sim' params cbrt Comm.sequential r).1.sumTolerance_ =
      params.newtonSumTolerance * cbrt (k * totalPoreVolume sim r.size) := by
    rw [preSolve_sumTolerance, comm_sequential_sum, localScan_sumPv, hT]
  refine ⟨fun hcube hcube' => ?_, fun hmul => ?_⟩
  · rw [h1, h2, mul_pow, mul_pow, hcube, hcube']
    ring
  · rw [h1, h2, hmul]
    ring

/-- C8 at a concrete input: one eligible DOF of pore volume 1, then of pore volume
8 (`k = 8`); the sum tolerance goes from 3 to 6, its cube from 27 to 216. -/
theorem sumTolerance_scales_with_cube_root_witness :
    ((freshMethod ⟨100, 3⟩ 1 0).preSolve_ unitSim ⟨100, 3⟩ cbrtTable Comm.sequential
        (constResidual 1 0)).1.sumTolerance_ = 3 ∧
      ((freshMethod ⟨100, 3⟩ 1 0).preSolve_ unitSimTimes8 ⟨100, 3⟩ cbrtTable Comm.sequential
        (constResidual 1 0)).1.sumTolerance_ ^ 3 =
        8 * ((freshMethod ⟨100, 3⟩ 1 0).preSolve_ unitSim ⟨100, 3⟩ cbrtTable Comm.sequential
          (constResidual 1 0)).1.sumTolerance_ ^ 3 ∧
      ((freshMethod ⟨100, 3⟩ 1 0).preSolve_ unitSimTimes8 ⟨100, 3⟩ cbrtTable Comm.sequential
        (constResidual 1 0)).1.sumTolerance_ =
        2 * ((freshMethod ⟨100, 3⟩ 1 0).preSolve_ unitSim ⟨100, 3⟩ cbrtTable
          Comm.sequential (constResidual 1 0)).1.sumTolerance_ := by
  have hT : totalPoreVolume unitSim (constResidual 1 0).size = 1 := by
    simp [totalPoreVolume, Simulator.eligibleDofs, Simulator.eligible, Simulator.constrained,
      Simulator.pvValue, unitSim, constResidual, Finset.filter_true_of_mem]
  have hc1 : cbrtTable 1 = 1 := by norm_num [cbrtTable]
  have hc8 : cbrtTable 8 = 2 := by norm_num [cbrtTable]
  have h := sumTolerance_scales_with_cube_root unitSim unitSimTimes8 ⟨100, 3⟩ cbrtTable
    (constResidual 1 0) (freshMethod ⟨100, 3⟩ 1 0) 8
  have h2 := h.2
    (fun d => by
      simp [Simulator.eligible, Simulator.constrained, unitSim, unitSimTimes8])
    (fun d => by simp [Simulator.pvValue, unitSim, unitSimTimes8])
  refine ⟨?_, h2.1 (by rw [hT, hc1]; norm_num) (by rw [hT]; norm_num [hc8]), ?_⟩
  · have h1 := h.1
    rw [show (∑ d ∈ unitSim.eligibleDofs (constResidual 1 0).size, unitSim.pvValue d) = 1
      from hT, hc1] at h1
    rw [h1]; norm_num
  · have h3 := h2.2 (by rw [hT]; norm_num [hc8, hc1])
    rw [hc8] at h3
    exact h3

/-- C9: after `preSolve_` (sequential run), `maxError` is the maximum of
`|residual[d][e] * dt * weight[d][e] / pv[d]|` over the eligible DOFs `d` and the
equations `e`: it bounds every such value, is one of them when there is one, and
is 0 when there is none.  The DOFs counted as violating are exactly the eligible
DOFs with `|residual[d][e] * dt * weight[d][e] / pv[d]| > strictTolerance` for at
least one equation `e`: the pore volumes of exactly these are summed and divided
by the total pore volume. -/
theorem maxError_eq_max_scaledError (sim : Simulator K numEq) (params : Params K)
    (cbrt : K → K) (r : GlobalEqVector K numEq) (self : EclNewtonMethod K) :
    (∀ d ∈ sim.eligibleDofs r.size, ∀ e,
        |r.block d e * sim.timeStepSize * sim.eqWeight d e / sim.pvValue d| ≤
          (self.preSolve_ sim params cbrt Comm.sequential r).1.error_) ∧
      ((∃ d ∈ sim.eligibleDofs r.size, ∃ e,
          (self.preSolve_ sim params cbrt Comm.sequential r).1.error_ =
            |r.block d e * sim.timeStepSize * sim.eqWeight d e / sim.pvValue d|) ∨
        ((sim.eligibleDofs r.size = ∅ ∨ numEq = 0) ∧
          (self.preSolve_ sim params cbrt Comm.sequential r).1.error_ = 0)) ∧
      (localScan sim r self.tolerance_).errorPvFraction_ =
        ∑ d ∈ (sim.eligibleDofs r.size).filter (fun d => ∃ e,
          |r.block d e * sim.timeStepSize * sim.eqWeight d e / sim.pvValue d| >
            self.tolerance_), sim.pvValue d ∧
      (self.preSolve_ sim params cbrt Comm.sequential r).1.errorPvFraction_ =
        (∑ d ∈ (sim.eligibleDofs r.size).filter (fun d => ∃ e,
          |r.block d e * sim.timeStepSize * sim.eqWeight d e / sim.pvValue d| >
            self.tolerance_), sim.pvValue d) / totalPoreVolume sim r.size := by
  have hle := (localScan_error_le_iff sim r self.tolerance_
    (localScan sim r self.tolerance_).error_).mp le_rfl
  have hviol := localScan_errorPvFraction sim r self.tolerance_
  rw [preSolve_error, comm_sequential_max, preSolve_errorPvFraction, comm_sequential_sum,
    comm_sequential_sum, localScan_sumPv]
  refine ⟨hle.2, ?_, hviol, by rw [hviol]; rfl⟩
  rcases localScan_error_attained sim r self.tolerance_ with h0 | hatt
  · by_cases hex : ∃ d ∈ sim.eligibleDofs r.size, ∃ e : Fin numEq, True
    · obtain ⟨d, hd, e, -⟩ := hex
      left
      refine ⟨d, hd, e, ?_⟩
      have h1 := hle.2 d hd e
      rw [h0] at h1 ⊢
      exact (abs_eq_zero.mpr (abs_nonpos_iff.mp h1)).symm
    · right
      refine ⟨?_, h0⟩
      by_contra hne
      rw [not_or] at hne
      obtain ⟨d, hd⟩ := Finset.nonempty_iff_ne_empty.mpr hne.1
      exact hex ⟨d, hd, ⟨0, Nat.pos_of_ne_zero hne.2⟩, trivial⟩
  · left; exact hatt

/-- C10: after `preSolve_` (sequential run), `errorSum` is the maximum over the
equations `e` of `|(Σ_d |residual[d][e] * weight[d][e]|) / sumPv * dt|`, the sum
ranging over the eligible DOFs and `sumPv` being their total pore volume: it
bounds each of these values, is one of them when there is an equation, and is 0
when there is none.  The absolute values are summed without any division by the
pore volume of the DOF; the sum is divided once by `sumPv` and then multiplied by
the time-step size. -/
theorem errorSum_eq_max_massBalanceError (sim : Simulator K numEq) (params : Params K)
    (cbrt : K → K) (r : GlobalEqVector K numEq) (self : EclNewtonMethod K) :
    (∀ e, |(∑ d ∈ sim.eligibleDofs r.size, |r.block d e * sim.eqWeight d e|) /
          (∑ d ∈ sim.eligibleDofs r.size, sim.pvValue d) * sim.timeStepSize| ≤
        (self.preSolve_ sim params cbrt Comm.sequential r).1.errorSum_) ∧
      ((∃ e, (self.preSolve_ sim params cbrt Comm.sequential r).1.errorSum_ =
          |(∑ d ∈ sim.eligibleDofs r.size, |r.block d e * sim.eqWeight d e|) /
            (∑ d ∈ sim.eligibleDofs r.size, sim.pvValue d) * sim.timeStepSize|) ∨
        (numEq = 0 ∧ (self.preSolve_ sim params cbrt Comm.sequential r).1.errorSum_ = 0)) := by
  have hv : (fun eqIdx : Fin numEq =>
      (Comm.sequential : Comm K numEq).sumVec
          (localScan sim r self.tolerance_).componentSumError eqIdx /
        (Comm.sequential : Comm K numEq).sum (fun p => p.sumPv)
          (localScan sim r self.tolerance_).sumPv * sim.timeStepSize) =
      massBalanceError sim r := by
    funext e
    rw [comm_sequential_sumVec, comm_sequential_sum, localScan_sumPv,
      localScan_componentSumError]
    rfl
  rw [preSolve_errorSum, hv]
  have hle := (errorSumLoop_le_iff (massBalanceError sim r)
    (errorSumLoop (massBalanceError sim r))).mp le_rfl
  refine ⟨hle.2, ?_⟩
  rcases errorSumLoop_attained (massBalanceError sim r) with h0 | hatt
  · by_cases hn : numEq = 0
    · right; exact ⟨hn, h0⟩
    · left
      refine ⟨⟨0, Nat.pos_of_ne_zero hn⟩, ?_⟩
      have h1 := hle.2 ⟨0, Nat.pos_of_ne_zero hn⟩
      rw [h0] at h1 ⊢
      exact (abs_eq_zero.mpr (abs_nonpos_iff.mp h1)).symm
  · left; exact hatt

/-- C11 as stated fails: with an eligible DOF of pore volume -1 that is not
violating and an eligible DOF of pore volume 2 that is, `preSolve_` returns
without throwing and leaves `violatingPoreVolumeFraction = 2`, outside `[0, 1]`. -/
theorem errorPvFraction_not_always_in_unit_interval :
    threw ((freshMethod ⟨100, 1⟩ 1 0).preSolve_ mixedSignSim ⟨100, 1⟩ cbrtTable
        Comm.sequential (twoDofResidual 0 4)) = false ∧
      ((freshMethod ⟨100, 1⟩ 1 0).preSolve_ mixedSignSim ⟨100, 1⟩ cbrtTable
        Comm.sequential (twoDofResidual 0 4)).1.errorPvFraction_ = 2 ∧
      ¬ ((freshMethod ⟨100, 1⟩ 1 0).preSolve_ mixedSignSim ⟨100, 1⟩ cbrtTable
        Comm.sequential (twoDofResidual 0 4)).1.errorPvFraction_ ≤ 1 := by
  refine ⟨?_, ?_, ?_⟩ <;>
  norm_num [EclNewtonMethod.preSolve_, threw, localScan, dofLoopBody, eqLoopBody,
    errorSumLoop, unitSim, mixedSignSim, twoDofResidual, cbrtTable, freshMethod,
    EclNewtonMethod.construct, Comm.sequential, Comm.max, Comm.sum, Comm.sumVec, List.range,
    List.range.loop, List.finRange]

/-- C11, amended: after every `preSolve_` (sequential run, whether it throws or
not), `violatingPoreVolumeFraction` is the sum of the pore volumes of the
violating eligible DOFs divided by the sum of the pore volumes of all eligible
DOFs.  When that total is not zero, the fraction times the total is the violating
pore volume; when moreover no eligible DOF has a negative pore volume, the
fraction lies in `[0, 1]`. -/
theorem errorPvFraction_in_unit_interval (sim : Simulator K numEq) (params : Params K)
    (cbrt : K → K) (r : GlobalEqVector K numEq) (self : EclNewtonMethod K) :
    (self.preSolve_ sim params cbrt Comm.sequential r).1.errorPvFraction_ =
        (∑ d ∈ (sim.eligibleDofs r.size).filter (fun d => ∃ e,
          |r.block d e * sim.timeStepSize * sim.eqWeight d e / sim.pvValue d| >
            self.tolerance_), sim.pvValue d) /
          ∑ d ∈ sim.eligibleDofs r.size, sim.pvValue d ∧
      ((∑ d ∈ sim.eligibleDofs r.size, sim.pvValue d) ≠ 0 →
        (self.preSolve_ sim params cbrt Comm.sequential r).1.errorPvFraction_ *
            (∑ d ∈ sim.eligibleDofs r.size, sim.pvValue d) =
          ∑ d ∈ (sim.eligibleDofs r.size).filter (fun d => ∃ e,
            |r.block d e * sim.timeStepSize * sim.eqWeight d e / sim.pvValue d| >
              self.tolerance_), sim.pvValue d ∧
        ((∀ d ∈ sim.eligibleDofs r.size, 0 ≤ sim.pvValue d) →
          0 ≤ (self.preSolve_ sim params cbrt Comm.sequential r).1.errorPvFraction_ ∧
            (self.preSolve_ sim params cbrt Comm.sequential r).1.errorPvFraction_ ≤ 1)) := by
  have hfrac : (self.preSolve_ sim params cbrt Comm.sequential r).1.errorPvFraction_ =
      (∑ d ∈ (sim.eligibleDofs r.size).filter (violating sim r self.tolerance_),
        sim.pvValue d) / ∑ d ∈ sim.eligibleDofs r.size, sim.pvValue d := by
    rw [preSolve_errorPvFraction, comm_sequential_sum, comm_sequential_sum, localScan_sumPv,
      localScan_errorPvFraction]
    rfl
  refine ⟨hfrac, fun hsum => ⟨?_, fun hpv => ?_⟩⟩
  · rw [hfrac]
    exact div_mul_cancel₀ _ hsum
  · have hnum : 0 ≤ ∑ d ∈ (sim.eligibleDofs r.size).filter (violating sim r self.tolerance_),
        sim.pvValue d :=
      Finset.sum_nonneg (fun d hd => hpv d (Finset.mem_filter.mp hd).1)
    have hle : ∑ d ∈ (sim.eligibleDofs r.size).filter (violating sim r self.tolerance_),
        sim.pvValue d ≤ ∑ d ∈ sim.eligibleDofs r.size, sim.pvValue d :=
      Finset.sum_le_sum_of_subset_of_nonneg (Finset.filter_subset _ _)
        (fun d hd _ => hpv d hd)
    have hpos : 0 < ∑ d ∈ sim.eligibleDofs r.size, sim.pvValue d :=
      lt_of_le_of_ne (Finset.sum_nonneg hpv) (Ne.symm hsum)
    rw [hfrac]
    exact ⟨div_nonneg hnum hpos.le, (div_le_one hpos).mpr hle⟩

/-- C11, amended, at a concrete input: one eligible DOF of pore volume 1 whose
scaled error 5 is above the strict tolerance 1; the fraction is in `[0, 1]`. -/
theorem errorPvFraction_in_unit_interval_witness :
    0 ≤ ((freshMethod ⟨100, 1⟩ 1 0).preSolve_ unitSim ⟨100, 1⟩ cbrtTable Comm.sequential
        (constResidual 1 5)).1.errorPvFraction_ ∧
      ((freshMethod ⟨100, 1⟩ 1 0).preSolve_ unitSim ⟨100, 1⟩ cbrtTable Comm.sequential
        (constResidual 1 5)).1.errorPvFraction_ ≤ 1 := by
  have hE : unitSim.eligibleDofs (constResidual 1 5).size = {0} := by
    ext d
    simp [Simulator.eligibleDofs, Simulator.eligible, Simulator.constrained, unitSim,
      constResidual]
  exact ((errorPvFraction_in_unit_interval unitSim ⟨100, 1⟩ cbrtTable (constResidual 1 5)
    (freshMethod ⟨100, 1⟩ 1 0)).2
      (by rw [hE]; norm_num [Simulator.pvValue, unitSim])).2
      (fun d _ => by norm_num [Simulator.pvValue, unitSim])

/-- C12 as stated fails: the loop tests the total volume of a DOF, not its pore
volume.  DOF 1 of `zeroPorositySim` has pore volume 0 and is not skipped: its
residual 5 enters the sum error (in the C++ code its scaled error is `5 / 0`).
DOF 0 of `mixedSignSim` has pore volume -1 and is not skipped: its pore volume
enters `sumPv` and its residual 3, divided by -1, is the maximum error. -/
theorem nonpositive_pore_volume_not_skipped :
    (zeroPorositySim.pvValue 1 = 0 ∧
        (localScan zeroPorositySim (twoDofResidual 0 0) 1).componentSumError 0 = 0 ∧
        (localScan zeroPorositySim (twoDofResidual 0 5) 1).componentSumError 0 = 5) ∧
      (mixedSignSim.pvValue 0 = -1 ∧
        (localScan mixedSignSim (twoDofResidual 3 0) 1).sumPv = 1 ∧
        (localScan mixedSignSim (twoDofResidual 3 0) 1).error_ = 3) := by
  refine ⟨⟨?_, ?_, ?_⟩, ?_, ?_, ?_⟩ <;>
  norm_num [Simulator.pvValue, localScan, dofLoopBody, eqLoopBody, unitSim, mixedSignSim,
    zeroPorositySim, twoDofResidual, List.range, List.range.loop, List.finRange]

/-- C12, amended: a DOF that changes the accumulated quantities of the loop
(`sumPv`, the maximum error, the sum errors, the violating pore volume) is a
local, unconstrained grid DOF of total volume `dofTotalVolume > 0`; a DOF of
total volume `≤ 0` is skipped; and the pore volume of a DOF that is not skipped
is positive exactly when its porosity is, so the scaled error is divided by a
positive value for the DOFs of positive porosity. -/
theorem contributing_dof_has_positive_total_volume (sim : Simulator K numEq)
    (r : GlobalEqVector K numEq) (dt tol : K) (st : ScanState K numEq) (d : Nat) :
    (dofLoopBody sim r dt tol st d ≠ st →
        d < sim.numGridDof ∧ 0 < sim.dofTotalVolume d ∧ sim.isLocalDof d = true ∧
          ¬ sim.constrained d) ∧
      (sim.dofTotalVolume d ≤ 0 → dofLoopBody sim r dt tol st d = st) ∧
      (sim.eligible d → (0 < sim.porosity d * sim.dofTotalVolume d ↔ 0 < sim.porosity d)) := by
  refine ⟨fun h => ?_, fun h => ?_, fun h => ?_⟩
  · by_contra hne
    exact h (dofLoopBody_of_not_eligible sim r dt tol st d hne)
  · exact dofLoopBody_of_not_eligible sim r dt tol st d (fun he => absurd he.2.1 (not_lt.mpr h))
  · exact ⟨fun hp => (pos_iff_pos_of_mul_pos hp).mpr h.2.1, fun hp => mul_pos hp h.2.1⟩

/-- C12, amended, at a concrete input: DOF 0 of `unitSim` changes `sumPv`, so it
has positive total volume; its porosity and its pore volume are positive. -/
theorem contributing_dof_has_positive_total_volume_witness :
    (0 : ℚ) < unitSim.dofTotalVolume 0 ∧ 0 < unitSim.porosity 0 * unitSim.dofTotalVolume 0 :=
  have h := contributing_dof_has_positive_total_volume unitSim (constResidual 1 0) 1 1
    { error_ := 0, componentSumError := fun _ => 0, sumPv := 0, errorPvFraction_ := 0 } 0
  have h1 := h.1 (by
    intro heq
    have := congrArg ScanState.sumPv heq
    norm_num [dofLoopBody, eqLoopBody, unitSim, constResidual, List.finRange] at this)
  ⟨h1.2.1, (h.2.2 ⟨h1.1, h1.2.1, h1.2.2.1, h1.2.2.2⟩).mpr (by norm_num [unitSim])⟩

/-- C13 as stated fails: when every DOF is auxiliary, so that no DOF is eligible
and `sumPv = 0`, `preSolve_` returns without throwing, and `converged()`
afterwards is false.  (The C++ code computes `errorSum = NaN` and
`violatingPoreVolumeFraction = NaN` there; none of its comparisons with NaN
holds.) -/
theorem zero_pore_volume_not_fatal :
    totalPoreVolume noGridDofSim (constResidual 1 5).size = 0 ∧
      threw ((freshMethod ⟨100, 1⟩ (1 / 100) 0).preSolve_ noGridDofSim ⟨100, 1⟩ cbrtTable
        Comm.sequential (constResidual 1 5)) = false ∧
      ((freshMethod ⟨100, 1⟩ (1 / 100) 0).preSolve_ noGridDofSim ⟨100, 1⟩ cbrtTable
        Comm.sequential (constResidual 1 5)).1.converged = false := by
  refine ⟨?_, ?_, ?_⟩
  · have hE : noGridDofSim.eligibleDofs (constResidual 1 5).size = ∅ :=
      Finset.filter_eq_empty_iff.mpr (fun d _ h => Nat.not_lt_zero d h.1)
    simp [totalPoreVolume, hE]
  all_goals
    norm_num [EclNewtonMethod.preSolve_, EclNewtonMethod.converged,
      EclNewtonMethod.numIterations, EclNewtonMethod.tolerance, threw, localScan, dofLoopBody,
      eqLoopBody, errorSumLoop, unitSim, noGridDofSim, constResidual, cbrtTable, freshMethod,
      EclNewtonMethod.construct, Comm.sequential, Comm.max, Comm.sum, Comm.sumVec, List.range,
      List.range.loop, List.finRange]

/-- C13, amended: `preSolve_` has no test of `sumPv`.  When no DOF is eligible
(so that `sumPv = 0`) and the ceiling is not negative, a sequential call returns
without throwing, with `maxError = 0` and `sumTolerance` the parameter times
`cbrt 0`; and when `cbrt 0 = 0`, `converged()` afterwards is false at every
iteration count.  (The C++ code leaves `errorSum = NaN` and
`violatingPoreVolumeFraction = NaN`, so its verdict is false as well.) -/
theorem no_eligible_dof_returns_unconverged (sim : Simulator K numEq) (params : Params K)
    (cbrt : K → K) (r : GlobalEqVector K numEq) (self : EclNewtonMethod K)
    (hnone : sim.eligibleDofs r.size = ∅) (hmax : 0 ≤ params.newtonMaxError) :
    totalPoreVolume sim r.size = 0 ∧
      threw (self.preSolve_ sim params cbrt Comm.sequential r) = false ∧
      (self.preSolve_ sim params cbrt Comm.sequential r).1.error_ = 0 ∧
      (self.preSolve_ sim params cbrt Comm.sequential r).1.sumTolerance_ =
        params.newtonSumTolerance * cbrt 0 ∧
      (cbrt 0 = 0 → (self.preSolve_ sim params cbrt Comm.sequential r).1.converged = false) := by
  have hpv : totalPoreVolume sim r.size = 0 := by
    unfold totalPoreVolume; rw [hnone]; simp
  have herr : (self.preSolve_ sim params cbrt Comm.sequential r).1.error_ = 0 := by
    rw [preSolve_error, comm_sequential_max]
    apply le_antisymm
    · rw [localScan_error_le_iff, hnone]
      exact ⟨le_rfl, fun d hd => absurd hd (Finset.not_mem_empty d)⟩
    · exact ((localScan_error_le_iff sim r self.tolerance_ _).mp le_rfl).1
  have hsumE : (self.preSolve_ sim params cbrt Comm.sequential r).1.errorSum_ = 0 := by
    rw [preSolve_errorSum, comm_sequential_sumVec, comm_sequential_sum, localScan_sumPv, hpv]
    apply le_antisymm
    · rw [errorSumLoop_le_iff]
      exact ⟨le_rfl, fun e => by simp⟩
    · exact ((errorSumLoop_le_iff _ _).mp le_rfl).1
  have hst : (self.preSolve_ sim params cbrt Comm.sequential r).1.sumTolerance_ =
      params.newtonSumTolerance * cbrt 0 := by
    rw [preSolve_sumTolerance, comm_sequential_sum, localScan_sumPv, hpv]
  have hfrac : (self.preSolve_ sim params cbrt Comm.sequential r).1.errorPvFraction_ = 0 := by
    rw [preSolve_errorPvFraction, comm_sequential_sum, comm_sequential_sum, localScan_sumPv,
      hpv, div_zero]
  refine ⟨hpv, ?_, herr, hst, fun hc => ?_⟩
  · rw [Bool.eq_false_iff]
    intro h
    rw [preSolve_threw, herr, hsumE] at h
    rcases h with h | h <;> exact absurd h (not_lt.mpr hmax)
  · unfold EclNewtonMethod.converged
    rw [hfrac, hsumE, hst, hc, mul_zero]
    have h3 : (0 : K) < 0.03 := by norm_num
    simp [h3]

/-- C13, amended, at a concrete input: every DOF of `noGridDofSim` is auxiliary. -/
theorem no_eligible_dof_returns_unconverged_witness :
    threw ((freshMethod ⟨100, 1⟩ (1 / 100) 0).preSolve_ noGridDofSim ⟨100, 1⟩ cbrtTable
        Comm.sequential (constResidual 1 5)) = false ∧
      ((freshMethod ⟨100, 1⟩ (1 / 100) 0).preSolve_ noGridDofSim ⟨100, 1⟩ cbrtTable
        Comm.sequential (constResidual 1 5)).1.error_ = 0 :=
  have h := no_eligible_dof_returns_unconverged noGridDofSim ⟨100, 1⟩ cbrtTable
    (constResidual 1 5) (freshMethod ⟨100, 1⟩ (1 / 100) 0)
    (Finset.filter_eq_empty_iff.mpr (fun d _ h => Nat.not_lt_zero d h.1))
    (by norm_num)
  ⟨h.2.1, h.2.2.1⟩

/-- C14: `preSolve_` sets `lastError` to the value `maxError` had before the call.
For two prior states with the same strict tolerance (part of the configuration)
and the same residual, DOF data, time-step size, parameters and communicator, the
new `maxError`, `errorSum`, `violatingPoreVolumeFraction` and `sumTolerance`, and
the outcome, are the same.  The members the call does not assign (strict
tolerance, iteration count, relaxed tolerance) keep their values. -/
theorem preSolve_forgets_prior_state (sim : Simulator K numEq) (params : Params K)
    (cbrt : K → K) (comm : Comm K numEq) (r : GlobalEqVector K numEq)
    (self self' : EclNewtonMethod K) (htol : self.tolerance_ = self'.tolerance_) :
    (self.preSolve_ sim params cbrt comm r).1.lastError_ = self.error_ ∧
      ((self.preSolve_ sim params cbrt comm r).1.error_ =
          (self'.preSolve_ sim params cbrt comm r).1.error_ ∧
        (self.preSolve_ sim params cbrt comm r).1.errorSum_ =
          (self'.preSolve_ sim params cbrt comm r).1.errorSum_ ∧
        (self.preSolve_ sim params cbrt comm r).1.errorPvFraction_ =
          (self'.preSolve_ sim params cbrt comm r).1.errorPvFraction_ ∧
        (self.preSolve_ sim params cbrt comm r).1.sumTolerance_ =
          (self'.preSolve_ sim params cbrt comm r).1.sumTolerance_ ∧
        threw (self.preSolve_ sim params cbrt comm r) =
          threw (self'.preSolve_ sim params cbrt comm r)) ∧
      ((self.preSolve_ sim params cbrt comm r).1.tolerance_ = self.tolerance_ ∧
        (self.preSolve_ sim params cbrt comm r).1.numIterations_ = self.numIterations_ ∧
        (self.preSolve_ sim params cbrt comm r).1.relaxedTolerance_ =
          self.relaxedTolerance_) := by
  have he : (self.preSolve_ sim params cbrt comm r).1.error_ =
      (self'.preSolve_ sim params cbrt comm r).1.error_ := by
    rw [preSolve_error, preSolve_error, htol]
  have hs : (self.preSolve_ sim params cbrt comm r).1.errorSum_ =
      (self'.preSolve_ sim params cbrt comm r).1.errorSum_ := by
    rw [preSolve_errorSum, preSolve_errorSum, htol]
  have ht : threw (self.preSolve_ sim params cbrt comm r) =
      threw (self'.preSolve_ sim params cbrt comm r) := by
    rw [Bool.eq_iff_iff, preSolve_threw, preSolve_threw, he, hs]
  refine ⟨preSolve_lastError sim params cbrt comm r self, ⟨he, hs, ?_, ?_, ht⟩,
    preSolve_tolerance sim params cbrt comm r self,
    preSolve_numIterations sim params cbrt comm r self,
    preSolve_relaxedTolerance sim params cbrt comm r self⟩
  · rw [preSolve_errorPvFraction, preSolve_errorPvFraction, htol]
  · rw [preSolve_sumTolerance, preSolve_sumTolerance, htol]

/-- C14 at a concrete input: a fresh method and the error state `errorState`
(`maxError = 5`), both of strict tolerance 1, on the same DOF and residual. -/
theorem preSolve_forgets_prior_state_witness :
    ((errorState 0.02 3).preSolve_ unitSim ⟨100, 1⟩ cbrtTable Comm.sequential
        (constResidual 1 2)).1.lastError_ = 5 ∧
      ((errorState 0.02 3).preSolve_ unitSim ⟨100, 1⟩ cbrtTable Comm.sequential
          (constResidual 1 2)).1.error_ =
        ((freshMethod ⟨100, 1⟩ 1 0).preSolve_ unitSim ⟨100, 1⟩ cbrtTable Comm.sequential
          (constResidual 1 2)).1.error_ ∧
      ((errorState 0.02 3).preSolve_ unitSim ⟨100, 1⟩ cbrtTable Comm.sequential
          (constResidual 1 2)).1.errorPvFraction_ =
        ((freshMethod ⟨100, 1⟩ 1 0).preSolve_ unitSim ⟨100, 1⟩ cbrtTable Comm.sequential
          (constResidual 1 2)).1.errorPvFraction_ :=
  have h := preSolve_forgets_prior_state unitSim ⟨100, 1⟩ cbrtTable Comm.sequential
    (constResidual 1 2) (errorState 0.02 3) (freshMethod ⟨100, 1⟩ 1 0) rfl
  ⟨h.1, h.2.1.1, h.2.1.2.2.1⟩

/-- C16 as stated fails: `converged()` is true at iteration count 0 and false at
iteration count 9 on a state with `errorSum = sumTolerance` (the strict test
accepts equality, the relaxed test does not), and on a state with
`maxError = strictTolerance = relaxedTolerance`. -/
theorem converged_not_monotone :
    ((boundaryState 0).tolerance_ ≤ (boundaryState 0).relaxedTolerance_ ∧
        (boundaryState 0).converged = true ∧ (boundaryState 9).converged = false) ∧
      ((equalTolerancesState 0).tolerance_ ≤ (equalTolerancesState 0).relaxedTolerance_ ∧
        (equalTolerancesState 0).converged = true ∧
        (equalTolerancesState 9).converged = false) := by
  refine ⟨⟨?_, ?_, ?_⟩, ?_, ?_, ?_⟩ <;>
  norm_num [EclNewtonMethod.converged, EclNewtonMethod.numIterations,
    EclNewtonMethod.tolerance, boundaryState, equalTolerancesState]

/-- C16, amended: for fixed `maxError`, `errorSum`, `violatingPoreVolumeFraction`,
`sumTolerance` and `strictTolerance ≤ relaxedTolerance`, with
`maxError ≠ relaxedTolerance` and `errorSum ≠ sumTolerance`, `converged()` is
monotone in the iteration count: true at `n` implies true at every `m ≥ n`. -/
theorem converged_monotone_off_boundary (self : EclNewtonMethod K) (n m : Int)
    (htol : self.tolerance_ ≤ self.relaxedTolerance_)
    (herr : self.error_ ≠ self.relaxedTolerance_)
    (hsum : self.errorSum_ ≠ self.sumTolerance_) (hnm : n ≤ m)
    (hn : (self.atIteration n).converged = true) :
    (self.atIteration m).converged = true := by
  unfold EclNewtonMethod.converged EclNewtonMethod.numIterations EclNewtonMethod.tolerance
    EclNewtonMethod.atIteration at hn ⊢
  dsimp only at hn ⊢
  by_cases h1 : self.errorPvFraction_ < 0.03
  · simpa [h1] using hn
  · by_cases h2 : n > 8
    · have h3 : m > 8 := lt_of_lt_of_le h2 hnm
      simp only [h1, h2, h3, if_true, if_false] at hn ⊢
      exact hn
    · simp only [h1, h2, if_false, Bool.and_eq_true, decide_eq_true_eq] at hn
      have h4 : self.error_ < self.relaxedTolerance_ :=
        lt_of_le_of_ne (le_trans hn.1 htol) herr
      have h5 : self.errorSum_ < self.sumTolerance_ := lt_of_le_of_ne hn.2 hsum
      by_cases h3 : m > 8
      · simp [h1, h3, h4, h5]
      · simp [h1, h3, hn.1, hn.2]

/-- C16, amended, at a concrete input: `strictlyAcceptedState` is accepted by the
strict test at iteration count 3, hence by the relaxed test at iteration count 9. -/
theorem converged_monotone_off_boundary_witness :
    (strictlyAcceptedState.atIteration 3).converged = true ∧
      (strictlyAcceptedState.atIteration 9).converged = true :=
  have h3 : (strictlyAcceptedState.atIteration 3).converged = true := by
    norm_num [EclNewtonMethod.converged, EclNewtonMethod.numIterations,
      EclNewtonMethod.tolerance, EclNewtonMethod.atIteration, strictlyAcceptedState]
  ⟨h3, converged_monotone_off_boundary strictlyAcceptedState 3 9
    (by norm_num [strictlyAcceptedState]) (by norm_num [strictlyAcceptedState])
    (by norm_num [strictlyAcceptedState]) (by norm_num) h3⟩

end Ewoms

namespace Dune

variable {B Row : Type} {numEq : Nat}

theorem bcTypesAfter_succ (problem : Problem B numEq) (ig : FaceGeometry)
    (bcTypes : BoundaryTypeVector B numEq) (n : Nat) :
    bcTypesAfter problem ig bcTypes (n + 1) =
      problem.boundaryTypes (bcTypesAfter problem ig bcTypes n)
        (ig.subEntity ig.indexInInside n) (ig.boundaryFaceIndex ig.indexInInside n) := by
  unfold bcTypesAfter
  rw [List.range_succ, List.foldl_append]
  rfl

variable [DecidableEq B]

theorem coeffLoopBody_apply (dim : Nat) (coeffs : LocalCoefficients) (dirichlet : B)
    (eqIdx : Fin numEq) (empty : Row) (bcTypes : BoundaryTypeVector B numEq)
    (elemVertIdx : Nat) (trafo : Trafo Row) (j i : Nat) :
    coeffLoopBody dim coeffs dirichlet eqIdx empty bcTypes elemVertIdx trafo j i =
      if j = i ∧ (coeffs.localKey j).codim = dim ∧
          (coeffs.localKey j).subEntity = elemVertIdx ∧ bcTypes eqIdx = dirichlet
      then some empty else trafo i := by
  unfold coeffLoopBody
  by_cases h1 : (coeffs.localKey j).codim = dim
  · by_cases h2 : (coeffs.localKey j).subEntity = elemVertIdx
    · by_cases h3 : bcTypes eqIdx = dirichlet
      · by_cases hj : j = i
        · subst hj; simp [h1, h2, h3]
        · simp [h1, h2, h3, hj, Function.update_noteq (Ne.symm hj)]
      · simp [h1, h2, h3]
    · simp [h1, h2]
  · simp [h1]

theorem coeffLoop_apply (dim : Nat) (coeffs : LocalCoefficients) (dirichlet : B)
    (eqIdx : Fin numEq) (empty : Row) (bcTypes : BoundaryTypeVector B numEq)
    (elemVertIdx : Nat) (l : List Nat) (trafo : Trafo Row) (i : Nat) :
    (i ∈ l ∧ (coeffs.localKey i).codim = dim ∧
        (coeffs.localKey i).subEntity = elemVertIdx ∧ bcTypes eqIdx = dirichlet →
      l.foldl (coeffLoopBody dim coeffs dirichlet eqIdx empty bcTypes elemVertIdx) trafo i =
        some empty) ∧
    (¬ (i ∈ l ∧ (coeffs.localKey i).codim = dim ∧
        (coeffs.localKey i).subEntity = elemVertIdx ∧ bcTypes eqIdx = dirichlet) →
      l.foldl (coeffLoopBody dim coeffs dirichlet eqIdx empty bcTypes elemVertIdx) trafo i =
        trafo i) := by
  induction l using List.reverseRecOn with
  | nil => simp
  | append_singleton l j ih =>
    rw [List.foldl_append, List.foldl_cons, List.foldl_nil, coeffLoopBody_apply]
    obtain ⟨ih1, ih2⟩ := ih
    by_cases hj : j = i
    · subst hj
      by_cases hc : (coeffs.localKey j).codim = dim ∧
          (coeffs.localKey j).subEntity = elemVertIdx ∧ bcTypes eqIdx = dirichlet
      · rw [if_pos ⟨rfl, hc⟩]
        exact ⟨fun _ => rfl, fun h => absurd ⟨by simp, hc⟩ h⟩
      · rw [if_neg (fun h => hc h.2)]
        exact ⟨fun h => absurd h.2 hc, fun _ => ih2 (fun h => hc h.2)⟩
    · rw [if_neg (fun h => hj h.1)]
      have hmem : i ∈ l ++ [j] ↔ i ∈ l := by
        simp [List.mem_append, Ne.symm hj]
      rw [hmem]
      exact ⟨ih1, ih2⟩

/-- The state of the loop over the vertices of the face after `n` vertices. -/
theorem faceVertLoop_apply (problem : Problem B numEq) (ig : FaceGeometry)
    (coeffs : LocalCoefficients) (dirichlet : B) (eqIdx : Fin numEq) (empty : Row)
    (bcTypes : BoundaryTypeVector B numEq) (trafo : Trafo Row) (n : Nat) :
    ((List.range n).foldl (faceVertLoopBody problem ig coeffs dirichlet eqIdx empty)
        { bcTypes := bcTypes, trafo := trafo }).bcTypes = bcTypesAfter problem ig bcTypes n ∧
      ∀ i,
        ((i < coeffs.size ∧ (coeffs.localKey i).codim = ig.dim ∧
            ∃ faceVertIdx < n,
              (coeffs.localKey i).subEntity = ig.subEntity ig.indexInInside faceVertIdx ∧
                bcTypesAfter problem ig bcTypes (faceVertIdx + 1) eqIdx = dirichlet) →
          ((List.range n).foldl (faceVertLoopBody problem ig coeffs dirichlet eqIdx empty)
            { bcTypes := bcTypes, trafo := trafo }).trafo i = some empty) ∧
        (¬ (i < coeffs.size ∧ (coeffs.localKey i).codim = ig.dim ∧
            ∃ faceVertIdx < n,
              (coeffs.localKey i).subEntity = ig.subEntity ig.indexInInside faceVertIdx ∧
                bcTypesAfter problem ig bcTypes (faceVertIdx + 1) eqIdx = dirichlet) →
          ((List.range n).foldl (faceVertLoopBody problem ig coeffs dirichlet eqIdx empty)
            { bcTypes := bcTypes, trafo := trafo }).trafo i = trafo i) := by
  induction n with
  | zero =>
    refine ⟨rfl, fun i => ⟨?_, fun _ => rfl⟩⟩
    rintro ⟨_, _, k, hk, _⟩
    exact absurd hk (Nat.not_lt_zero k)
  | succ n ih =>
    obtain ⟨ihbc, ihtrafo⟩ := ih
    rw [List.range_succ, List.foldl_append, List.foldl_cons, List.foldl_nil]
    have hbc : (faceVertLoopBody problem ig coeffs dirichlet eqIdx empty
        ((List.range n).foldl (faceVertLoopBody problem ig coeffs dirichlet eqIdx empty)
          { bcTypes := bcTypes, trafo := trafo }) n).bcTypes =
        bcTypesAfter problem ig bcTypes (n + 1) := by
      rw [bcTypesAfter_succ, ← ihbc]
      rfl
    refine ⟨hbc, fun i => ?_⟩
    obtain ⟨ih1, ih2⟩ := ihtrafo i
    have hstep := coeffLoop_apply ig.dim coeffs dirichlet eqIdx empty
      (bcTypesAfter problem ig bcTypes (n + 1)) (ig.subEntity ig.indexInInside n)
      (List.range coeffs.size)
      ((List.range n).foldl (faceVertLoopBody problem ig coeffs dirichlet eqIdx empty)
        { bcTypes := bcTypes, trafo := trafo }).trafo i
    have htrafo : (faceVertLoopBody problem ig coeffs dirichlet eqIdx empty
        ((List.range n).foldl (faceVertLoopBody problem ig coeffs dirichlet eqIdx empty)
          { bcTypes := bcTypes, trafo := trafo }) n).trafo =
        (List.range coeffs.size).foldl
          (coeffLoopBody ig.dim coeffs dirichlet eqIdx empty
            (bcTypesAfter problem ig bcTypes (n + 1)) (ig.subEntity ig.indexInInside n))
          ((List.range n).foldl (faceVertLoopBody problem ig coeffs dirichlet eqIdx empty)
            { bcTypes := bcTypes, trafo := trafo }).trafo := by
      rw [bcTypesAfter_succ, ← ihbc]
      rfl
    rw [htrafo]
    by_cases hnow : i ∈ List.range coeffs.size ∧ (coeffs.localKey i).codim = ig.dim ∧
        (coeffs.localKey i).subEntity = ig.subEntity ig.indexInInside n ∧
        bcTypesAfter problem ig bcTypes (n + 1) eqIdx = dirichlet
    · rw [hstep.1 hnow]
      refine ⟨fun _ => rfl, fun hnot => ?_⟩
      exact absurd ⟨List.mem_range.mp hnow.1, hnow.2.1, n, Nat.lt_succ_self n, hnow.2.2⟩ hnot
    · rw [hstep.2 hnow]
      constructor
      · rintro ⟨hi, hcodim, k, hk, hsub, hbcd⟩
        rcases Nat.lt_or_eq_of_le (Nat.lt_succ_iff.mp hk) with hlt | heq
        · exact ih1 ⟨hi, hcodim, k, hlt, hsub, hbcd⟩
        · subst heq
          exact absurd ⟨List.mem_range.mpr hi, hcodim, hsub, hbcd⟩ hnow
      · intro hnot
        apply ih2
        rintro ⟨hi, hcodim, k, hk, hsub, hbcd⟩
        exact hnot ⟨hi, hcodim, k, Nat.lt_succ_of_lt hk, hsub, hbcd⟩

/-- C18: `BoxDirichletConstraints::boundary` replaces `trafo[i]` by the empty row
exactly for the local coefficient indices `i` whose local key has `codim == dim`
and whose `subEntity` is a vertex of the face at which the boundary type that the
problem gives for equation `eqIdx` is `dirichlet`; every other entry of `trafo`
is left as it was.  The boundary type at a vertex is the entry of `bcTypes` after
the call of `problem_.boundaryTypes` for that vertex. -/
theorem boundary_sets_exactly_dirichlet_rows (problem : Problem B numEq)
    (ig : FaceGeometry) (coeffs : LocalCoefficients) (dirichlet : B) (eqIdx : Fin numEq)
    (empty : Row) (bcTypes : BoundaryTypeVector B numEq) (trafo : Trafo Row) (i : Nat) :
    ((i < coeffs.size ∧ (coeffs.localKey i).codim = ig.dim ∧
        ∃ faceVertIdx < ig.size ig.indexInInside,
          (coeffs.localKey i).subEntity = ig.subEntity ig.indexInInside faceVertIdx ∧
            bcTypesAfter problem ig bcTypes (faceVertIdx + 1) eqIdx = dirichlet) →
      BoxDirichletConstraints.boundary problem ig coeffs dirichlet eqIdx empty bcTypes trafo i =
        some empty) ∧
    (¬ (i < coeffs.size ∧ (coeffs.localKey i).codim = ig.dim ∧
        ∃ faceVertIdx < ig.size ig.indexInInside,
          (coeffs.localKey i).subEntity = ig.subEntity ig.indexInInside faceVertIdx ∧
            bcTypesAfter problem ig bcTypes (faceVertIdx + 1) eqIdx = dirichlet) →
      BoxDirichletConstraints.boundary problem ig coeffs dirichlet eqIdx empty bcTypes trafo i =
        trafo i) :=
  (faceVertLoop_apply problem ig coeffs dirichlet eqIdx empty bcTypes trafo
    (ig.size ig.indexInInside)).2 i

/-- C18 at a concrete input: on the triangle seen from face 0 (vertices 0 and 1),
with a problem that is Dirichlet at vertex 0 only, `boundary` empties the row of
coefficient 0 and leaves the rows of coefficient 1 (Neumann vertex of the face),
coefficient 2 (vertex not on the face) and coefficient 3 (not attached to a
vertex) as they were. -/
theorem boundary_sets_exactly_dirichlet_rows_witness :
    BoxDirichletConstraints.boundary dirichletAtVertex0 triangleFace triangleCoefficients
        ExampleFlags.dirichlet 0 [] (fun _ => ExampleFlags.process) fullTrafo 0 = some [] ∧
      BoxDirichletConstraints.boundary dirichletAtVertex0 triangleFace triangleCoefficients
        ExampleFlags.dirichlet 0 [] (fun _ => ExampleFlags.process) fullTrafo 1 = some [7] ∧
      BoxDirichletConstraints.boundary dirichletAtVertex0 triangleFace triangleCoefficients
        ExampleFlags.dirichlet 0 [] (fun _ => ExampleFlags.process) fullTrafo 2 = some [7] ∧
      BoxDirichletConstraints.boundary dirichletAtVertex0 triangleFace triangleCoefficients
        ExampleFlags.dirichlet 0 [] (fun _ => ExampleFlags.process) fullTrafo 3 = some [7] := by
  refine ⟨(boundary_sets_exactly_dirichlet_rows dirichletAtVertex0 triangleFace
      triangleCoefficients ExampleFlags.dirichlet 0 [] (fun _ => ExampleFlags.process)
      fullTrafo 0).1 ⟨by decide, rfl, 0, by decide, rfl, rfl⟩,
    (boundary_sets_exactly_dirichlet_rows dirichletAtVertex0 triangleFace
      triangleCoefficients ExampleFlags.dirichlet 0 [] (fun _ => ExampleFlags.process)
      fullTrafo 1).2 ?_,
    (boundary_sets_exactly_dirichlet_rows dirichletAtVertex0 triangleFace
      triangleCoefficients ExampleFlags.dirichlet 0 [] (fun _ => ExampleFlags.process)
      fullTrafo 2).2 ?_,
    (boundary_sets_exactly_dirichlet_rows dirichletAtVertex0 triangleFace
      triangleCoefficients ExampleFlags.dirichlet 0 [] (fun _ => ExampleFlags.process)
      fullTrafo 3).2 ?_⟩
  · rintro ⟨-, -, k, hk, hsub, hbc⟩
    have hk1 : k = 1 := by
      simpa [triangleCoefficients, triangleFace] using hsub.symm
    subst hk1
    simp [bcTypesAfter, dirichletAtVertex0, triangleFace, List.range_succ] at hbc
  · rintro ⟨-, -, k, hk, hsub, -⟩
    have hk2 : k = 2 := by
      simpa [triangleCoefficients, triangleFace] using hsub.symm
    subst hk2
    exact absurd hk (by decide)
  · rintro ⟨-, hcodim, -⟩
    simp [triangleCoefficients, triangleFace] at hcodim

end Dune
